import Mathlib

/-!
Verification of the GATT client discovery walk of `src/nrf-softdevice/src/ble/gatt_client.rs`.

The Rust code is an asynchronous, paginated discovery procedure: a primary-service
lookup, then characteristic pagination over the service's handle range, then a
descriptor lookup per characteristic (bounded by the next characteristic's
declaration handle).  Each transport request suspends on a per-connection portal
until the event-dispatch boundary signals a `PortalMessage`.

Shallow embedding: the walk is a small-step machine.  `WState` is the set of
suspension (await) points; a run consumes one `Event` of a script per await.
An `Event` encodes everything the awaiting step observes for one request:
whether `check_connected` failed, whether the `sd_*` call was rejected, the raw
GATT event handed to the event handler, or a `Disconnected` portal signal.
All pure helpers (`check_status`, the `on_*_disc_rsp` handlers, the descriptor
range computation of `discover_inner`) are translated directly from the source.
`u16` arithmetic wraps (release-mode Rust semantics), written with explicit
`% 65536`.
-/

namespace GattClient

/-- 16-bit wrap-around, as performed by Rust `u16` arithmetic in release mode. -/
def u16 (n : Nat) : Nat := n % 65536

/-- Raw UUID as seen by the softdevice (`ble_uuid_t`): a type discriminator and
a 16-bit value. `uuidType = 0` is `BLE_UUID_TYPE_UNKNOWN`. -/
structure RawUuid where
  uuidType : Nat
  value : Nat
deriving DecidableEq

/-- A locally resolvable UUID. -/
abbrev Uuid := Nat

/-- Modelled from the spec: `Uuid::from_raw` (from the `ble` module, not under
`src/`) yields a UUID that is "optionally absent if the server used a 128-bit
UUID not locally resolvable"; the raw UUID with unknown type resolves to none. -/
def Uuid.fromRaw (r : RawUuid) : Option Uuid :=
  if r.uuidType = 0 then none else some r.value

/-- `ble_gattc_handle_range_t`: inclusive pair of 16-bit attribute handles. -/
structure HandleRange where
  startHandle : Nat
  endHandle : Nat
deriving DecidableEq

/-- `ble_gattc_service_t`: a discovered primary service. -/
structure ServiceRaw where
  uuid : RawUuid
  handleRange : HandleRange
deriving DecidableEq

/-- `ble_gattc_char_t`: a raw characteristic record from a discovery response. -/
structure CharRaw where
  uuid : RawUuid
  charProps : Nat
  charExtProps : Nat
  handleDecl : Nat
  handleValue : Nat
deriving DecidableEq

/-- `ble_gattc_desc_t`: a raw descriptor record from a discovery response. -/
structure DescRaw where
  uuid : RawUuid
  handle : Nat
deriving DecidableEq

/-! ### Status taxonomy

The numeric values are the `BLE_GATT_STATUS_*` constants of the generated
`raw` bindings (Nordic softdevice headers; the bindings themselves are not
under `src/`, the values below are the Nordic attribute-protocol status
codes the enum in `gatt_client.rs` is declared over). -/

def BLE_GATT_STATUS_SUCCESS : Nat := 0x0000
def BLE_GATT_STATUS_UNKNOWN : Nat := 0x0001
def BLE_GATT_STATUS_ATTERR_INVALID : Nat := 0x0100
def BLE_GATT_STATUS_ATTERR_INVALID_HANDLE : Nat := 0x0101
def BLE_GATT_STATUS_ATTERR_READ_NOT_PERMITTED : Nat := 0x0102
def BLE_GATT_STATUS_ATTERR_WRITE_NOT_PERMITTED : Nat := 0x0103
def BLE_GATT_STATUS_ATTERR_INVALID_PDU : Nat := 0x0104
def BLE_GATT_STATUS_ATTERR_INSUF_AUTHENTICATION : Nat := 0x0105
def BLE_GATT_STATUS_ATTERR_REQUEST_NOT_SUPPORTED : Nat := 0x0106
def BLE_GATT_STATUS_ATTERR_INVALID_OFFSET : Nat := 0x0107
def BLE_GATT_STATUS_ATTERR_INSUF_AUTHORIZATION : Nat := 0x0108
def BLE_GATT_STATUS_ATTERR_PREPARE_QUEUE_FULL : Nat := 0x0109
def BLE_GATT_STATUS_ATTERR_ATTRIBUTE_NOT_FOUND : Nat := 0x010A
def BLE_GATT_STATUS_ATTERR_ATTRIBUTE_NOT_LONG : Nat := 0x010B
def BLE_GATT_STATUS_ATTERR_INSUF_ENC_KEY_SIZE : Nat := 0x010C
def BLE_GATT_STATUS_ATTERR_INVALID_ATT_VAL_LENGTH : Nat := 0x010D
def BLE_GATT_STATUS_ATTERR_UNLIKELY_ERROR : Nat := 0x010E
def BLE_GATT_STATUS_ATTERR_INSUF_ENCRYPTION : Nat := 0x010F
def BLE_GATT_STATUS_ATTERR_UNSUPPORTED_GROUP_TYPE : Nat := 0x0110
def BLE_GATT_STATUS_ATTERR_INSUF_RESOURCES : Nat := 0x0111
def BLE_GATT_STATUS_ATTERR_CPS_WRITE_REQ_REJECTED : Nat := 0x01FC
def BLE_GATT_STATUS_ATTERR_CPS_CCCD_CONFIG_ERROR : Nat := 0x01FD
def BLE_GATT_STATUS_ATTERR_CPS_PROC_ALR_IN_PROG : Nat := 0x01FE
def BLE_GATT_STATUS_ATTERR_CPS_OUT_OF_RANGE : Nat := 0x01FF

/-- `GattError` (`gatt_client.rs` lines 54-88). -/
inductive GattError where
  | success
  | unknown
  | atterrInvalid
  | atterrInvalidHandle
  | atterrReadNotPermitted
  | atterrWriteNotPermitted
  | atterrInvalidPdu
  | atterrInsufAuthentication
  | atterrRequestNotSupported
  | atterrInvalidOffset
  | atterrInsufAuthorization
  | atterrPrepareQueueFull
  | atterrAttributeNotFound
  | atterrAttributeNotLong
  | atterrInsufEncKeySize
  | atterrInvalidAttValLength
  | atterrUnlikelyError
  | atterrInsufEncryption
  | atterrUnsupportedGroupType
  | atterrInsufResources
  | atterrCpsWriteReqRejected
  | atterrCpsCccdConfigError
  | atterrCpsProcAlrInProg
  | atterrCpsOutOfRange
deriving DecidableEq

/-- The `num_enum` `FromPrimitive` instance derived on `GattError`: each raw
status code maps to the variant with that discriminant, every other value maps
to the `#[num_enum(default)]` variant `Unknown`. -/
def GattError.fromRaw (n : Nat) : GattError :=
  if n = BLE_GATT_STATUS_SUCCESS then .success
  else if n = BLE_GATT_STATUS_ATTERR_INVALID then .atterrInvalid
  else if n = BLE_GATT_STATUS_ATTERR_INVALID_HANDLE then .atterrInvalidHandle
  else if n = BLE_GATT_STATUS_ATTERR_READ_NOT_PERMITTED then .atterrReadNotPermitted
  else if n = BLE_GATT_STATUS_ATTERR_WRITE_NOT_PERMITTED then .atterrWriteNotPermitted
  else if n = BLE_GATT_STATUS_ATTERR_INVALID_PDU then .atterrInvalidPdu
  else if n = BLE_GATT_STATUS_ATTERR_INSUF_AUTHENTICATION then .atterrInsufAuthentication
  else if n = BLE_GATT_STATUS_ATTERR_REQUEST_NOT_SUPPORTED then .atterrRequestNotSupported
  else if n = BLE_GATT_STATUS_ATTERR_INVALID_OFFSET then .atterrInvalidOffset
  else if n = BLE_GATT_STATUS_ATTERR_INSUF_AUTHORIZATION then .atterrInsufAuthorization
  else if n = BLE_GATT_STATUS_ATTERR_PREPARE_QUEUE_FULL then .atterrPrepareQueueFull
  else if n = BLE_GATT_STATUS_ATTERR_ATTRIBUTE_NOT_FOUND then .atterrAttributeNotFound
  else if n = BLE_GATT_STATUS_ATTERR_ATTRIBUTE_NOT_LONG then .atterrAttributeNotLong
  else if n = BLE_GATT_STATUS_ATTERR_INSUF_ENC_KEY_SIZE then .atterrInsufEncKeySize
  else if n = BLE_GATT_STATUS_ATTERR_INVALID_ATT_VAL_LENGTH then .atterrInvalidAttValLength
  else if n = BLE_GATT_STATUS_ATTERR_UNLIKELY_ERROR then .atterrUnlikelyError
  else if n = BLE_GATT_STATUS_ATTERR_INSUF_ENCRYPTION then .atterrInsufEncryption
  else if n = BLE_GATT_STATUS_ATTERR_UNSUPPORTED_GROUP_TYPE then .atterrUnsupportedGroupType
  else if n = BLE_GATT_STATUS_ATTERR_INSUF_RESOURCES then .atterrInsufResources
  else if n = BLE_GATT_STATUS_ATTERR_CPS_WRITE_REQ_REJECTED then .atterrCpsWriteReqRejected
  else if n = BLE_GATT_STATUS_ATTERR_CPS_CCCD_CONFIG_ERROR then .atterrCpsCccdConfigError
  else if n = BLE_GATT_STATUS_ATTERR_CPS_PROC_ALR_IN_PROG then .atterrCpsProcAlrInProg
  else if n = BLE_GATT_STATUS_ATTERR_CPS_OUT_OF_RANGE then .atterrCpsOutOfRange
  else .unknown

/-- The fixed catalogue of known `BLE_GATT_STATUS_*` codes (every discriminant
appearing in the `GattError` declaration). -/
def knownStatusCodes : List Nat :=
  [BLE_GATT_STATUS_SUCCESS, BLE_GATT_STATUS_UNKNOWN,
   BLE_GATT_STATUS_ATTERR_INVALID, BLE_GATT_STATUS_ATTERR_INVALID_HANDLE,
   BLE_GATT_STATUS_ATTERR_READ_NOT_PERMITTED, BLE_GATT_STATUS_ATTERR_WRITE_NOT_PERMITTED,
   BLE_GATT_STATUS_ATTERR_INVALID_PDU, BLE_GATT_STATUS_ATTERR_INSUF_AUTHENTICATION,
   BLE_GATT_STATUS_ATTERR_REQUEST_NOT_SUPPORTED, BLE_GATT_STATUS_ATTERR_INVALID_OFFSET,
   BLE_GATT_STATUS_ATTERR_INSUF_AUTHORIZATION, BLE_GATT_STATUS_ATTERR_PREPARE_QUEUE_FULL,
   BLE_GATT_STATUS_ATTERR_ATTRIBUTE_NOT_FOUND, BLE_GATT_STATUS_ATTERR_ATTRIBUTE_NOT_LONG,
   BLE_GATT_STATUS_ATTERR_INSUF_ENC_KEY_SIZE, BLE_GATT_STATUS_ATTERR_INVALID_ATT_VAL_LENGTH,
   BLE_GATT_STATUS_ATTERR_UNLIKELY_ERROR, BLE_GATT_STATUS_ATTERR_INSUF_ENCRYPTION,
   BLE_GATT_STATUS_ATTERR_UNSUPPORTED_GROUP_TYPE, BLE_GATT_STATUS_ATTERR_INSUF_RESOURCES,
   BLE_GATT_STATUS_ATTERR_CPS_WRITE_REQ_REJECTED, BLE_GATT_STATUS_ATTERR_CPS_CCCD_CONFIG_ERROR,
   BLE_GATT_STATUS_ATTERR_CPS_PROC_ALR_IN_PROG, BLE_GATT_STATUS_ATTERR_CPS_OUT_OF_RANGE]

/-- `DiscoverError` (`gatt_client.rs` lines 92-101). `raw` carries the numeric
code of a rejected `sd_*` request (`RawError`). -/
inductive DiscoverError where
  | disconnected
  | serviceNotFound
  | serviceIncomplete
  | gatt (e : GattError)
  | raw (code : Nat)
deriving DecidableEq

/-- `Result<α, DiscoverError>`. -/
inductive GRes (α : Type) where
  | ok (a : α)
  | err (e : DiscoverError)
deriving DecidableEq

/-- Capacity of one characteristic discovery response page (`type DiscCharsMax = U6`). -/
def DiscCharsMax : Nat := 6

/-- Capacity of one descriptor discovery response page (`type DiscDescsMax = U6`). -/
def DiscDescsMax : Nat := 6

/-- `PortalMessage` (`gatt_client.rs` lines 124-129). -/
inductive PortalMessage where
  | discoverService (r : GRes ServiceRaw)
  | discoverCharacteristics (r : GRes (List CharRaw))
  | discoverDescriptors (r : GRes (List DescRaw))
  | disconnected
deriving DecidableEq

/-- `check_status` (`gatt_client.rs` lines 351-360): run `f` when the event's
status is `BLE_GATT_STATUS_SUCCESS`, otherwise convert the status through the
`GattError` primitive mapping.  The `Option` layer is the panic monad: `none`
models a `depanic!` inside `f`. -/
def check_status {α : Type} (status : Nat) (f : Unit → Option (GRes α)) : Option (GRes α) :=
  if status = BLE_GATT_STATUS_SUCCESS then f ()
  else some (.err (.gatt (GattError.fromRaw status)))

/-- `on_prim_srvc_disc_rsp` (lines 148-172): zero services is `ServiceNotFound`;
more than one service logs a warning and takes the first. The returned value is
the `PortalMessage` signaled into the connection's portal. -/
def on_prim_srvc_disc_rsp (status : Nat) (services : List ServiceRaw) : Option PortalMessage :=
  (check_status status fun _ =>
    some (match services with
      | [] => GRes.err .serviceNotFound
      | s :: _ => GRes.ok s)).map .discoverService

/-- `on_char_disc_rsp` (lines 202-218): on success the records are copied into a
`Vec` of capacity `DiscCharsMax`; overflow is `depanic!` (`none`), never
truncation. -/
def on_char_disc_rsp (status : Nat) (chars : List CharRaw) : Option PortalMessage :=
  (check_status status fun _ =>
    if chars.length ≤ DiscCharsMax then some (GRes.ok chars) else none).map
    .discoverCharacteristics

/-- `on_desc_disc_rsp` (lines 248-264): same shape as `on_char_disc_rsp` with
capacity `DiscDescsMax`. -/
def on_desc_disc_rsp (status : Nat) (descs : List DescRaw) : Option PortalMessage :=
  (check_status status fun _ =>
    if descs.length ≤ DiscDescsMax then some (GRes.ok descs) else none).map
    .discoverDescriptors

/-- One raw GATT client event as delivered to the event-dispatch boundary. -/
inductive GattcEvt where
  | primSrvc (status : Nat) (services : List ServiceRaw)
  | charDisc (status : Nat) (chars : List CharRaw)
  | descDisc (status : Nat) (descs : List DescRaw)
deriving DecidableEq

/-- The event-dispatch boundary: route a raw event through its handler, yielding
the portal message it signals (`none` models a handler `depanic!`). -/
def dispatch : GattcEvt → Option PortalMessage
  | .primSrvc status services => on_prim_srvc_disc_rsp status services
  | .charDisc status chars => on_char_disc_rsp status chars
  | .descDisc status descs => on_desc_disc_rsp status descs

/-- What one suspended request step observes, in program order:
`notConnected` = `check_connected()` returned `Err(DisconnectedError)` before the
`sd_*` call; `reject code` = the `sd_*` call itself returned a non-zero
`RawError`; `evt g` = the request was accepted and the event-dispatch boundary
signaled the handler's message for `g`; `disconnected` = the portal was signaled
with `PortalMessage::Disconnected` (connection teardown) while awaiting. -/
inductive Event where
  | notConnected
  | reject (code : Nat)
  | evt (g : GattcEvt)
  | disconnected
deriving DecidableEq

/-- `Characteristic` (lines 12-19). -/
structure Characteristic where
  uuid : Option Uuid
  handleDecl : Nat
  handleValue : Nat
  props : Nat
  hasExtProps : Bool
deriving DecidableEq

/-- `Descriptor` (lines 21-25). -/
structure Descriptor where
  uuid : Option Uuid
  handle : Nat
deriving DecidableEq

/-- Conversion of a raw characteristic record performed in `discover_inner`
(lines 283-289). -/
def toCharacteristic (c : CharRaw) : Characteristic :=
  { uuid := Uuid.fromRaw c.uuid
    handleDecl := c.handleDecl
    handleValue := c.handleValue
    props := c.charProps
    hasExtProps := c.charExtProps ≠ 0 }

/-- The descriptor collection loop of `discover_inner` (lines 291-303): each raw
record is converted and pushed into a `Vec` of capacity `DiscDescsMax`;
overflow is `depanic!`. -/
def buildDescriptors (ds : List DescRaw) : Option (List Descriptor) :=
  if ds.length ≤ DiscDescsMax then
    some (ds.map fun d => { uuid := Uuid.fromRaw d.uuid, handle := d.handle })
  else none

/-- The descriptor handle range computed by `discover_inner` (lines 277-281):
`start = handle_value + 1`; `end = next.handle_decl - 1` when a next
characteristic is known, otherwise the service's end handle.  `u16` arithmetic
wraps. -/
def descRange (curr : CharRaw) (next : Option CharRaw) (svcEnd : Nat) : HandleRange :=
  { startHandle := u16 (curr.handleValue + 1)
    endHandle :=
      match next with
      | some c => u16 (c.handleDecl + 65535)
      | none => svcEnd }

/-- The `Client` trait (lines 27-52), as a capability record over a client state
type `σ`.  `discovery_complete` takes `&mut self` and returns
`Result<(), DiscoverError>`; on success `discover` hands the (possibly updated)
instance back to its caller, modelled by returning the updated state. -/
structure Client (σ : Type) where
  uuid : Uuid
  new_undiscovered : σ
  discovered_characteristic : σ → Characteristic → List Descriptor → σ
  discovery_complete : σ → GRes σ

/-- A transport request issued by the walk (one `sd_ble_gattc_*` call). -/
inductive Request where
  | serviceLookup (uuid : Uuid)
  | charPage (r : HandleRange)
  | descLookup (r : HandleRange)
deriving DecidableEq

/-- Observable actions of a run: transport requests, characteristic deliveries
to the client, and the final completeness check. -/
inductive TraceItem where
  | req (r : Request)
  | charCb (c : Characteristic) (ds : List Descriptor)
  | completeCheck
deriving DecidableEq

/-- What happens after a descriptor await resolves: either resume the page loop
at characteristic `c` with the rest of the page, or (for the last held-back
characteristic) run the completion check. -/
inductive Cont where
  | continuePage (c : CharRaw) (rest : List CharRaw)
  | finish
deriving DecidableEq

/-- The await points of `discover`: the three `portal.wait()` suspensions,
with the local state the Rust task holds across each. -/
inductive WState (σ : Type) where
  | svcAwait
  | charsAwait (svc : ServiceRaw) (st : σ) (curr : Nat) (prev : Option CharRaw)
  | descsAwait (svc : ServiceRaw) (st : σ) (fin : CharRaw) (range : HandleRange) (k : Cont)

/-- Terminal result of a run. `panic` models `depanic!`/`deassert!`/`unreachable!`. -/
inductive Outcome (σ : Type) where
  | ok (st : σ)
  | err (e : DiscoverError)
  | panic

/-- Result of running a script: terminated, or suspended at an await with no
further events provided. -/
inductive RunResult (σ : Type) where
  | fin (o : Outcome σ)
  | stuck (w : WState σ)

/-- First half of `discover_inner` (lines 268-294): compute the descriptor range;
if it is non-empty the step must await a descriptor request over it, otherwise
the characteristic is reported immediately with no descriptors and no request. -/
inductive FinalizeResult (σ : Type) where
  | await (r : HandleRange)
  | done (st : σ) (tr : List TraceItem)

def discover_inner_pre {σ : Type} (cl : Client σ) (svcEnd : Nat) (st : σ)
    (p : CharRaw) (next : Option CharRaw) : FinalizeResult σ :=
  if (descRange p next svcEnd).startHandle ≤ (descRange p next svcEnd).endHandle then
    .await (descRange p next svcEnd)
  else
    .done (cl.discovered_characteristic st (toCharacteristic p) [])
      [.charCb (toCharacteristic p) []]

/-- Second half of `discover_inner` (lines 294-307): convert the returned
descriptor records (panicking on capacity overflow) and invoke the client's
characteristic callback. -/
def discover_inner_post {σ : Type} (cl : Client σ) (st : σ) (p : CharRaw)
    (ds : List DescRaw) : Option (σ × List TraceItem) :=
  match buildDescriptors ds with
  | none => none
  | some descs =>
      let ch := toCharacteristic p
      some (cl.discovered_characteristic st ch descs, [.charCb ch descs])

/-- `client.discovery_complete()?; Ok(client)` (lines 346-348). -/
def completeOutcome {σ : Type} (cl : Client σ) (st : σ) : Outcome σ :=
  match cl.discovery_complete st with
  | .ok st' => .ok st'
  | .err e => .err e

def completeStep {σ : Type} (cl : Client σ) (st : σ) : Outcome σ × List TraceItem :=
  (completeOutcome cl st, [.completeCheck])

/-- The code after the `while` loop (lines 342-348): finalize the held-back
characteristic (upper bound: the service's end handle) and run the completion
check. -/
def finalizeLast {σ : Type} (cl : Client σ) (svc : ServiceRaw) (st : σ) :
    Option CharRaw → (WState σ ⊕ Outcome σ) × List TraceItem
  | none =>
      let (o, tr) := completeStep cl st
      (.inr o, tr)
  | some p =>
      match discover_inner_pre cl svc.handleRange.endHandle st p none with
      | .await r => (.inl (.descsAwait svc st p r .finish), [])
      | .done st' tr =>
          let (o, tr') := completeStep cl st'
          (.inr o, tr ++ tr')

/-- The `for curr in chars` body (lines 334-340) followed by the `while` loop
head (line 328): process the remaining characteristics of the current page,
stopping at the next await point or at the end of the walk.  `prev` is the
held-back characteristic, `currH` the pagination cursor. -/
def runPage {σ : Type} (cl : Client σ) (svc : ServiceRaw) (st : σ)
    (prev : Option CharRaw) (currH : Nat) :
    List CharRaw → (WState σ ⊕ Outcome σ) × List TraceItem
  | [] =>
      if currH < svc.handleRange.endHandle then
        (.inl (.charsAwait svc st currH prev), [])
      else
        finalizeLast cl svc st prev
  | c :: cs =>
      match prev with
      | none => runPage cl svc st (some c) (u16 (c.handleValue + 1)) cs
      | some p =>
          match discover_inner_pre cl svc.handleRange.endHandle st p (some c) with
          | .await r => (.inl (.descsAwait svc st p r (.continuePage c cs)), [])
          | .done st' tr =>
              let (res, tr') := runPage cl svc st' (some c) (u16 (c.handleValue + 1)) cs
              (res, tr ++ tr')

/-- `T::new_undiscovered` followed by loop entry (lines 322-328). -/
def startLoop {σ : Type} (cl : Client σ) (svc : ServiceRaw) :
    (WState σ ⊕ Outcome σ) × List TraceItem :=
  runPage cl svc cl.new_undiscovered none svc.handleRange.startHandle []

/-- The transport request issued (and awaited) at each await point. -/
def pendingReq {σ : Type} (cl : Client σ) : WState σ → Request
  | .svcAwait => .serviceLookup cl.uuid
  | .charsAwait svc _ currH _ => .charPage ⟨currH, svc.handleRange.endHandle⟩
  | .descsAwait _ _ _ r _ => .descLookup r

/-- Reaction of the suspended step to a portal message: the `match` following
each `portal.wait()` (lines 141-145, 195-199, 241-245) together with the
surrounding logic of `discover` (lines 315-320 service-lookup remap;
lines 329-341 pagination; `discover_inner` resumption).  A message of the wrong
kind is the `_ => unreachable!()` arm. -/
def handleMsg {σ : Type} (cl : Client σ) :
    WState σ → PortalMessage → (WState σ ⊕ Outcome σ) × List TraceItem
  | .svcAwait, .discoverService r =>
      (match r with
      | .ok s => startLoop cl s
      | .err e =>
          (.inr (.err (if e = .gatt .atterrAttributeNotFound then .serviceNotFound else e)), []))
  | .charsAwait svc st currH prev, .discoverCharacteristics r =>
      (match r with
      | .ok chars =>
          if chars.isEmpty then (.inr .panic, [])
          else runPage cl svc st prev currH chars
      | .err e =>
          if e = .gatt .atterrAttributeNotFound then finalizeLast cl svc st prev
          else (.inr (.err e), []))
  | .descsAwait svc st p _ k, .discoverDescriptors r =>
      (match r with
      | .ok ds =>
          (match discover_inner_post cl st p ds with
          | none => (.inr .panic, [])
          | some (st', tr) =>
              match k with
              | .continuePage c cs =>
                  let (res, tr') := runPage cl svc st' (some c) (u16 (c.handleValue + 1)) cs
                  (res, tr ++ tr')
              | .finish =>
                  let (o, tr') := completeStep cl st'
                  (.inr o, tr ++ tr'))
      | .err e => (.inr (.err e), []))
  | _, .disconnected => (.inr (.err .disconnected), [])
  | _, _ => (.inr .panic, [])

/-- One await point consuming one event.  `check_connected()?` runs before the
`sd_*` call, so `notConnected` issues no request; a rejected or accepted call
has issued its request. -/
def stepAt {σ : Type} (cl : Client σ) (w : WState σ) : Event →
    (WState σ ⊕ Outcome σ) × List TraceItem
  | .notConnected => (.inr (.err .disconnected), [])
  | .reject code => (.inr (.err (.raw code)), [.req (pendingReq cl w)])
  | .disconnected => (.inr (.err .disconnected), [.req (pendingReq cl w)])
  | .evt g =>
      match dispatch g with
      | none => (.inr .panic, [.req (pendingReq cl w)])
      | some m =>
          let (res, tr) := handleMsg cl w m
          (res, .req (pendingReq cl w) :: tr)

/-- Run the machine over a script, one event per await point.  Returns the
result, the trace, and the unconsumed suffix of the script. -/
def exec {σ : Type} (cl : Client σ) (w : WState σ) :
    List Event → RunResult σ × List TraceItem × List Event
  | [] => (.stuck w, [], [])
  | e :: rest =>
      match stepAt cl w e with
      | (.inr o, tr) => (.fin o, tr, rest)
      | (.inl w', tr) =>
          let r := exec cl w' rest
          (r.1, tr ++ r.2.1, r.2.2)

/-- Continue a run from the result of a transition. -/
def execSum {σ : Type} (cl : Client σ) :
    (WState σ ⊕ Outcome σ) × List TraceItem → List Event →
    RunResult σ × List TraceItem × List Event
  | (.inr o, tr), script => (.fin o, tr, script)
  | (.inl w, tr), script =>
      let r := exec cl w script
      (r.1, tr ++ r.2.1, r.2.2)

/-- `discover` (lines 312-349), driven by a script of transport events. -/
def discover {σ : Type} (cl : Client σ) (script : List Event) :
    RunResult σ × List TraceItem × List Event :=
  exec cl .svcAwait script

/-- The characteristics delivered to the client, in delivery order. -/
def reportedChars (tr : List TraceItem) : List Characteristic :=
  tr.filterMap fun t =>
    match t with
    | .charCb c _ => some c
    | _ => none

/-! ### Concrete clients used by the concrete-scenario claims -/

/-- A client that records every delivered characteristic together with its
descriptors, in delivery order, and is always complete. -/
def recClient : Client (List (Characteristic × List Descriptor)) :=
  { uuid := 42
    new_undiscovered := []
    discovered_characteristic := fun l c ds => l ++ [(c, ds)]
    discovery_complete := fun l => .ok l }

/-- A client that counts delivered characteristics and reports completeness iff
it has seen at least one. -/
def countClient : Client Nat :=
  { uuid := 7
    new_undiscovered := 0
    discovered_characteristic := fun n _ _ => n + 1
    discovery_complete := fun n => if n = 0 then .err .serviceIncomplete else .ok n }

/-! ### The concrete end-to-end scenario of claim C2 -/

def svcC2 : ServiceRaw := ⟨⟨1, 0x180F⟩, ⟨1, 20⟩⟩

def charA : CharRaw := ⟨⟨1, 0x2A19⟩, 2, 0, 2, 3⟩

def charB : CharRaw := ⟨⟨1, 0x2A1A⟩, 2, 0, 5, 6⟩

def descA : DescRaw := ⟨⟨1, 0x2902⟩, 4⟩

def descB : DescRaw := ⟨⟨1, 0x2902⟩, 7⟩

/-- Transport script of the C2 scenario: service found over [1,20]; one page
with characteristics A (decl 2, value 3) and B (decl 5, value 6); pagination
exhaustion; and one descriptor response for each characteristic. -/
def scriptC2 : List Event :=
  [.evt (.primSrvc BLE_GATT_STATUS_SUCCESS [svcC2]),
   .evt (.charDisc BLE_GATT_STATUS_SUCCESS [charA, charB]),
   .evt (.descDisc BLE_GATT_STATUS_SUCCESS [descA]),
   .evt (.charDisc BLE_GATT_STATUS_ATTERR_ATTRIBUTE_NOT_FOUND []),
   .evt (.descDisc BLE_GATT_STATUS_SUCCESS [descB])]

/-- Unfolding of `exec` on a cons script. -/
lemma exec_cons {σ : Type} (cl : Client σ) (w : WState σ) (e : Event) (rest : List Event) :
    exec cl w (e :: rest) = execSum cl (stepAt cl w e) rest := by
  rcases h : stepAt cl w e with ⟨r, tr⟩
  cases r <;> simp [exec, execSum, h]

/-- A run that exhausts its script while suspended resumes seamlessly when the
script is extended: the continuation runs from the suspended await state. -/
lemma exec_stuck_append {σ : Type} (cl : Client σ) :
    ∀ (s1 : List Event) (w w' : WState σ) (tr : List TraceItem) (s2 : List Event),
      exec cl w s1 = (.stuck w', tr, []) →
      exec cl w (s1 ++ s2) =
        ((exec cl w' s2).1, tr ++ (exec cl w' s2).2.1, (exec cl w' s2).2.2) := by
  intro s1
  induction s1 with
  | nil =>
      intro w w' tr s2 h
      simp only [exec, Prod.mk.injEq, RunResult.stuck.injEq] at h
      obtain ⟨hw, htr, -⟩ := h
      subst hw
      subst htr
      simp
  | cons e s1 ih =>
      intro w w' tr s2 h
      rw [exec_cons] at h
      rw [List.cons_append, exec_cons]
      rcases hst : stepAt cl w e with ⟨r, tr0⟩
      rw [hst] at h
      cases r with
      | inr o => simp [execSum] at h
      | inl w0 =>
          simp only [execSum] at h ⊢
          rcases hr : exec cl w0 s1 with ⟨r1, tr1, rest1⟩
          rw [hr] at h
          simp only [Prod.mk.injEq] at h
          obtain ⟨h1, h2, h3⟩ := h
          subst h1
          subst h3
          rw [ih w0 w' tr1 s2 (by rw [hr])]
          simp [← h2]

/-! ### A faithful server model for pagination (claims C3 and C6)

`serverScriptFrom` produces the event sequence a GATT server holding the
characteristic list `remaining` (and no descriptors) sends in reply to the
orchestrator's requests: full pages of size `ps` in handle order, an
attribute-not-found failure once the list is exhausted and another page is
requested, and an empty success page for every descriptor lookup. -/

/-- Well-formed characteristic chain starting at lower bound `lb`: declaration
handles ascend from `lb`, each declaration handle precedes its value handle,
and value handles are 16-bit. -/
def charChain : Nat → List CharRaw → Prop
  | _, [] => True
  | lb, c :: cs =>
      lb ≤ c.handleDecl ∧ c.handleDecl < c.handleValue ∧ c.handleValue < 65536 ∧
        charChain (c.handleValue + 1) cs

/-- The held-back characteristic after processing `l` with current hold-back
`prev`. -/
def lastOf : Option CharRaw → List CharRaw → Option CharRaw
  | prev, [] => prev
  | _, c :: cs => lastOf (some c) cs

/-- The pagination cursor after processing `l` (`curr_handle` after the `for`
loop). -/
def cursorAfter : Nat → List CharRaw → Nat
  | currH, [] => currH
  | _, c :: cs => cursorAfter (u16 (c.handleValue + 1)) cs

/-- The unwrapped chain bound after a page (used to split `charChain`). -/
def chainLB : Nat → List CharRaw → Nat
  | lb, [] => lb
  | _, c :: cs => chainLB (c.handleValue + 1) cs

/-- The characteristics finalized while processing `l` with hold-back `prev`
(everything except the new hold-back). -/
def finalized : Option CharRaw → List CharRaw → List CharRaw
  | _, [] => []
  | none, c :: cs => finalized (some c) cs
  | some p, c :: cs => p :: finalized (some c) cs

/-- Running the client's characteristic callback over a list (each with no
descriptors). -/
def foldClient {σ : Type} (cl : Client σ) (st : σ) (cs : List Characteristic) : σ :=
  cs.foldl (fun s c => cl.discovered_characteristic s c []) st

/-- Server answer to the descriptor lookup finalizing `p` (none if the range is
empty and no request is made). -/
def descEvts (p : CharRaw) (next : Option CharRaw) (svcEnd : Nat) : List Event :=
  if (descRange p next svcEnd).startHandle ≤ (descRange p next svcEnd).endHandle then
    [.evt (.descDisc BLE_GATT_STATUS_SUCCESS [])]
  else []

/-- Server answers to the descriptor lookups issued while one page is
processed. -/
def pageDescEvts (svcEnd : Nat) : Option CharRaw → List CharRaw → List Event
  | _, [] => []
  | prev, c :: cs =>
      (match prev with
       | none => []
       | some p => descEvts p (some c) svcEnd) ++ pageDescEvts svcEnd (some c) cs

/-- Server answer to the final hold-back finalization. -/
def lastDescEvts (svcEnd : Nat) : Option CharRaw → List Event
  | none => []
  | some p => descEvts p none svcEnd

/-- The server's event stream from the top of the pagination loop. -/
def serverScriptFrom (svcEnd ps : Nat) : List CharRaw → Option CharRaw → List Event
  | [], prev =>
      .evt (.charDisc BLE_GATT_STATUS_ATTERR_ATTRIBUTE_NOT_FOUND []) ::
        lastDescEvts svcEnd prev
  | r :: rs, prev =>
      .evt (.charDisc BLE_GATT_STATUS_SUCCESS ((r :: rs).take (max ps 1))) ::
        (pageDescEvts svcEnd prev ((r :: rs).take (max ps 1)) ++
          (if u16 (((rs.take (max ps 1 - 1)).getLastD r).handleValue + 1) < svcEnd then
            serverScriptFrom svcEnd ps ((r :: rs).drop (max ps 1))
              (some ((rs.take (max ps 1 - 1)).getLastD r))
          else lastDescEvts svcEnd (some ((rs.take (max ps 1 - 1)).getLastD r))))
termination_by l prev => l.length
decreasing_by
  simp only [List.length_drop, List.length_cons]
  omega

/-- Trace of finalizing `p` against `next` on this server. -/
def finalizeTrace (p : CharRaw) (next : Option CharRaw) (svcEnd : Nat) : List TraceItem :=
  (if (descRange p next svcEnd).startHandle ≤ (descRange p next svcEnd).endHandle then
    [TraceItem.req (.descLookup (descRange p next svcEnd))]
  else []) ++ [.charCb (toCharacteristic p) []]

/-- Trace produced while one page is processed. -/
def pageTrace (svcEnd : Nat) : Option CharRaw → List CharRaw → List TraceItem
  | _, [] => []
  | prev, c :: cs =>
      (match prev with
       | none => []
       | some p => finalizeTrace p (some c) svcEnd) ++ pageTrace svcEnd (some c) cs

/-- Trace of the walk's tail: final hold-back finalization and completion
check. -/
def lastTrace (svcEnd : Nat) : Option CharRaw → List TraceItem
  | none => [.completeCheck]
  | some p => finalizeTrace p none svcEnd ++ [.completeCheck]

/-- Full expected trace from the top of the pagination loop. -/
def loopTrace (svcEnd ps : Nat) : List CharRaw → Option CharRaw → Nat → List TraceItem
  | [], prev, currH => .req (.charPage ⟨currH, svcEnd⟩) :: lastTrace svcEnd prev
  | r :: rs, prev, currH =>
      .req (.charPage ⟨currH, svcEnd⟩) ::
        (pageTrace svcEnd prev ((r :: rs).take (max ps 1)) ++
          (if u16 (((rs.take (max ps 1 - 1)).getLastD r).handleValue + 1) < svcEnd then
            loopTrace svcEnd ps ((r :: rs).drop (max ps 1))
              (some ((rs.take (max ps 1 - 1)).getLastD r))
              (u16 (((rs.take (max ps 1 - 1)).getLastD r).handleValue + 1))
          else lastTrace svcEnd (some ((rs.take (max ps 1 - 1)).getLastD r))))
termination_by l prev currH => l.length
decreasing_by
  simp only [List.length_drop, List.length_cons]
  omega

lemma charChain_mono : ∀ (l : List CharRaw) (lb lb' : Nat), lb' ≤ lb →
    charChain lb l → charChain lb' l
  | [], _, _, _, _ => trivial
  | c :: cs, lb, lb', hle, h =>
      ⟨Nat.le_trans hle h.1, h.2.1, h.2.2.1, h.2.2.2⟩

lemma charChain_mem : ∀ (l : List CharRaw) (lb : Nat), charChain lb l →
    ∀ c ∈ l, c.handleDecl < c.handleValue ∧ c.handleValue < 65536 := by
  intro l
  induction l with
  | nil => intro lb h c hc; cases hc
  | cons c cs ih =>
      intro lb h c0 hc0
      rcases List.mem_cons.mp hc0 with rfl | hc0
      · exact ⟨h.2.1, h.2.2.1⟩
      · exact ih (c.handleValue + 1) h.2.2.2 c0 hc0

lemma chainLB_cons : ∀ (l : List CharRaw) (c : CharRaw) (lb : Nat),
    chainLB lb (c :: l) = (l.getLastD c).handleValue + 1 := by
  intro l
  induction l with
  | nil => intro c lb; rfl
  | cons c2 l2 ih =>
      intro c lb
      rw [List.getLastD_cons]
      exact ih c2 (c.handleValue + 1)

lemma charChain_chainLB : ∀ (l : List CharRaw) (lb : Nat), charChain lb l →
    charChain (chainLB lb l) [] ∧ True := fun _ _ _ => ⟨trivial, trivial⟩

lemma charChain_take_drop : ∀ (l : List CharRaw) (n : Nat) (lb : Nat), charChain lb l →
    charChain (chainLB lb (l.take n)) (l.drop n) := by
  intro l
  induction l with
  | nil => intro n lb h; simp [chainLB, charChain]
  | cons c cs ih =>
      intro n lb h
      cases n with
      | zero => exact h
      | succ m =>
          rw [List.take_succ_cons, List.drop_succ_cons]
          exact ih m (c.handleValue + 1) h.2.2.2

lemma lastOf_cons : ∀ (l : List CharRaw) (c : CharRaw) (prev : Option CharRaw),
    lastOf prev (c :: l) = some (l.getLastD c) := by
  intro l
  induction l with
  | nil => intro c prev; rfl
  | cons c2 l2 ih =>
      intro c prev
      rw [List.getLastD_cons]
      exact ih c2 (some c)

lemma cursorAfter_cons : ∀ (l : List CharRaw) (c : CharRaw) (currH : Nat),
    cursorAfter currH (c :: l) = u16 ((l.getLastD c).handleValue + 1) := by
  intro l
  induction l with
  | nil => intro c currH; rfl
  | cons c2 l2 ih =>
      intro c currH
      rw [List.getLastD_cons]
      exact ih c2 (u16 (c.handleValue + 1))

lemma finalized_lastOf : ∀ (l : List CharRaw) (prev : Option CharRaw),
    finalized prev l ++ (lastOf prev l).toList = prev.toList ++ l := by
  intro l
  induction l with
  | nil => intro prev; cases prev <;> rfl
  | cons c cs ih =>
      intro prev
      cases prev with
      | none => simpa using ih (some c)
      | some p =>
          have := ih (some c)
          simp only [finalized, lastOf, List.cons_append]
          rw [this]
          rfl

lemma execSum_pre {σ : Type} (cl : Client σ) (x : WState σ ⊕ Outcome σ)
    (pre tr : List TraceItem) (s : List Event) :
    execSum cl (x, pre ++ tr) s =
      ((execSum cl (x, tr) s).1, pre ++ (execSum cl (x, tr) s).2.1,
       (execSum cl (x, tr) s).2.2) := by
  cases x <;> simp [execSum]

lemma execSum_pre_cons {σ : Type} (cl : Client σ) (x : WState σ ⊕ Outcome σ)
    (t : TraceItem) (tr : List TraceItem) (s : List Event) :
    execSum cl (x, t :: tr) s =
      ((execSum cl (x, tr) s).1, t :: (execSum cl (x, tr) s).2.1,
       (execSum cl (x, tr) s).2.2) := by
  cases x <;> simp [execSum]

lemma foldClient_append {σ : Type} (cl : Client σ) (st : σ) (a b : List Characteristic) :
    foldClient cl st (a ++ b) = foldClient cl (foldClient cl st a) b :=
  List.foldl_append _ _ a b

lemma foldClient_cons {σ : Type} (cl : Client σ) (st : σ) (c : Characteristic)
    (l : List Characteristic) :
    foldClient cl st (c :: l) = foldClient cl (cl.discovered_characteristic st c []) l := rfl

/-! Step computations at the await points driven by this server's events. -/

lemma stepAt_descs_finish {σ : Type} (cl : Client σ) (svc : ServiceRaw) (st : σ)
    (p : CharRaw) (rng : HandleRange) :
    stepAt cl (.descsAwait svc st p rng .finish)
        (.evt (.descDisc BLE_GATT_STATUS_SUCCESS [])) =
      (.inr (completeOutcome cl (cl.discovered_characteristic st (toCharacteristic p) [])),
       [.req (.descLookup rng), .charCb (toCharacteristic p) [], .completeCheck]) := rfl

lemma stepAt_descs_continue {σ : Type} (cl : Client σ) (svc : ServiceRaw) (st : σ)
    (p : CharRaw) (rng : HandleRange) (c : CharRaw) (cs : List CharRaw) :
    stepAt cl (.descsAwait svc st p rng (.continuePage c cs))
        (.evt (.descDisc BLE_GATT_STATUS_SUCCESS [])) =
      ((runPage cl svc (cl.discovered_characteristic st (toCharacteristic p) [])
          (some c) (u16 (c.handleValue + 1)) cs).1,
       .req (.descLookup rng) :: .charCb (toCharacteristic p) [] ::
         (runPage cl svc (cl.discovered_characteristic st (toCharacteristic p) [])
           (some c) (u16 (c.handleValue + 1)) cs).2) := rfl

lemma stepAt_chars_attnf {σ : Type} (cl : Client σ) (svc : ServiceRaw) (st : σ)
    (currH : Nat) (prev : Option CharRaw) :
    stepAt cl (.charsAwait svc st currH prev)
        (.evt (.charDisc BLE_GATT_STATUS_ATTERR_ATTRIBUTE_NOT_FOUND [])) =
      ((finalizeLast cl svc st prev).1,
       .req (.charPage ⟨currH, svc.handleRange.endHandle⟩) ::
         (finalizeLast cl svc st prev).2) := rfl

lemma stepAt_chars_ok {σ : Type} (cl : Client σ) (svc : ServiceRaw) (st : σ)
    (currH : Nat) (prev : Option CharRaw) (c : CharRaw) (cs : List CharRaw)
    (hlen : (c :: cs).length ≤ DiscCharsMax) :
    stepAt cl (.charsAwait svc st currH prev)
        (.evt (.charDisc BLE_GATT_STATUS_SUCCESS (c :: cs))) =
      ((runPage cl svc st prev currH (c :: cs)).1,
       .req (.charPage ⟨currH, svc.handleRange.endHandle⟩) ::
         (runPage cl svc st prev currH (c :: cs)).2) := by
  have hlen' : cs.length + 1 ≤ DiscCharsMax := by simpa using hlen
  have hd : dispatch (.charDisc BLE_GATT_STATUS_SUCCESS (c :: cs)) =
      some (.discoverCharacteristics (.ok (c :: cs))) := by
    simp [dispatch, on_char_disc_rsp, check_status, hlen', BLE_GATT_STATUS_SUCCESS]
  simp [stepAt, hd, handleMsg, pendingReq]

lemma stepAt_svc_ok {σ : Type} (cl : Client σ) (s : ServiceRaw) :
    stepAt cl .svcAwait (.evt (.primSrvc BLE_GATT_STATUS_SUCCESS [s])) =
      ((startLoop cl s).1, .req (.serviceLookup cl.uuid) :: (startLoop cl s).2) := rfl

/-- Finalizing the last held-back characteristic against this server, followed
by the completion check. -/
lemma finalize_server {σ : Type} (cl : Client σ) (svc : ServiceRaw) (st : σ)
    (prev : Option CharRaw) (extra : List Event) :
    execSum cl (finalizeLast cl svc st prev)
        (lastDescEvts svc.handleRange.endHandle prev ++ extra) =
      (.fin (completeOutcome cl (foldClient cl st (prev.toList.map toCharacteristic))),
       lastTrace svc.handleRange.endHandle prev, extra) := by
  cases prev with
  | none => simp [finalizeLast, completeStep, lastDescEvts, lastTrace, execSum, foldClient]
  | some p =>
      by_cases hif : (descRange p none svc.handleRange.endHandle).startHandle ≤
          (descRange p none svc.handleRange.endHandle).endHandle
      · have hpre : discover_inner_pre cl svc.handleRange.endHandle st p none =
            .await (descRange p none svc.handleRange.endHandle) := by
          rw [discover_inner_pre, if_pos hif]
        simp only [finalizeLast, hpre, lastDescEvts, descEvts, if_pos hif, execSum,
          List.singleton_append]
        rw [exec_cons, stepAt_descs_finish]
        simp [execSum, lastTrace, finalizeTrace, if_pos hif, foldClient]
      · have hpre : discover_inner_pre cl svc.handleRange.endHandle st p none =
            .done (cl.discovered_characteristic st (toCharacteristic p) [])
              [.charCb (toCharacteristic p) []] := by
          rw [discover_inner_pre, if_neg hif]
        simp only [finalizeLast, hpre, lastDescEvts, descEvts, if_neg hif, completeStep]
        simp [execSum, lastTrace, finalizeTrace, if_neg hif, foldClient]

/-- Processing one page against this server: the client folds over the
finalized characteristics, the hold-back and cursor advance, and the trace is
`pageTrace`. -/
lemma runPage_server {σ : Type} (cl : Client σ) (svc : ServiceRaw) :
    ∀ (page : List CharRaw) (st : σ) (prev : Option CharRaw) (currH : Nat) (s : List Event),
      execSum cl (runPage cl svc st prev currH page)
          (pageDescEvts svc.handleRange.endHandle prev page ++ s) =
        (let E := execSum cl (runPage cl svc
            (foldClient cl st ((finalized prev page).map toCharacteristic))
            (lastOf prev page) (cursorAfter currH page) []) s
         (E.1, pageTrace svc.handleRange.endHandle prev page ++ E.2.1, E.2.2)) := by
  intro page
  induction page with
  | nil =>
      intro st prev currH s
      simp [pageDescEvts, pageTrace, finalized, lastOf, cursorAfter, foldClient]
  | cons c cs ih =>
      intro st prev currH s
      cases prev with
      | none =>
          simpa [runPage, pageDescEvts, pageTrace, finalized, lastOf, cursorAfter] using
            ih st (some c) (u16 (c.handleValue + 1)) s
      | some p =>
          have hih := ih (cl.discovered_characteristic st (toCharacteristic p) [])
            (some c) (u16 (c.handleValue + 1)) s
          rcases hR : runPage cl svc (cl.discovered_characteristic st (toCharacteristic p) [])
            (some c) (u16 (c.handleValue + 1)) cs with ⟨res, tr2⟩
          rw [hR] at hih
          by_cases hif : (descRange p (some c) svc.handleRange.endHandle).startHandle ≤
              (descRange p (some c) svc.handleRange.endHandle).endHandle
          · have hpre : discover_inner_pre cl svc.handleRange.endHandle st p (some c) =
                .await (descRange p (some c) svc.handleRange.endHandle) := by
              rw [discover_inner_pre, if_pos hif]
            have hstep : stepAt cl (.descsAwait svc st p
                  (descRange p (some c) svc.handleRange.endHandle) (.continuePage c cs))
                  (.evt (.descDisc BLE_GATT_STATUS_SUCCESS [])) =
                (res, [TraceItem.req (Request.descLookup
                    (descRange p (some c) svc.handleRange.endHandle)),
                  TraceItem.charCb (toCharacteristic p) []] ++ tr2) := by
              rw [stepAt_descs_continue, hR]
              rfl
            simp only [runPage, hpre, pageDescEvts, pageTrace, descEvts, if_pos hif,
              List.singleton_append, List.cons_append, List.nil_append]
            simp only [execSum, List.nil_append]
            rw [exec_cons, hstep, execSum_pre]
            rw [hih]
            simp only [finalized, lastOf, cursorAfter, List.map_cons, foldClient_cons,
              finalizeTrace, if_pos hif, List.append_assoc, List.cons_append,
              List.singleton_append, List.nil_append]
            rfl
          · have hpre : discover_inner_pre cl svc.handleRange.endHandle st p (some c) =
                .done (cl.discovered_characteristic st (toCharacteristic p) [])
                  [.charCb (toCharacteristic p) []] := by
              rw [discover_inner_pre, if_neg hif]
            simp only [runPage, hpre, pageDescEvts, pageTrace, descEvts, if_neg hif,
              List.nil_append, hR, List.singleton_append]
            rw [execSum_pre_cons]
            rw [hih]
            simp only [finalized, lastOf, cursorAfter, List.map_cons, foldClient_cons,
              finalizeTrace, if_neg hif, List.append_assoc, List.cons_append,
              List.singleton_append, List.nil_append]
            rfl

/-- Pagination exhaustion: a page request past the last characteristic fails
with attribute-not-found, the loop breaks, the hold-back is finalized and the
completion check runs. -/
lemma exec_server_nil {σ : Type} (cl : Client σ) (svc : ServiceRaw) (ps : Nat)
    (prev : Option CharRaw) (currH : Nat) (st : σ) (extra : List Event) :
    exec cl (.charsAwait svc st currH prev)
        (serverScriptFrom svc.handleRange.endHandle ps [] prev ++ extra) =
      (.fin (completeOutcome cl (foldClient cl st (prev.toList.map toCharacteristic))),
       loopTrace svc.handleRange.endHandle ps [] prev currH, extra) := by
  have hfs := finalize_server cl svc st prev extra
  rcases hF : finalizeLast cl svc st prev with ⟨resF, trF⟩
  rw [hF] at hfs
  simp only [serverScriptFrom, loopTrace, List.cons_append]
  rw [exec_cons]
  have hstep : stepAt cl (.charsAwait svc st currH prev)
      (.evt (.charDisc BLE_GATT_STATUS_ATTERR_ATTRIBUTE_NOT_FOUND [])) =
      (resF, .req (.charPage ⟨currH, svc.handleRange.endHandle⟩) :: trF) := by
    rw [stepAt_chars_attnf, hF]
  rw [hstep, execSum_pre_cons, hfs]

/-- Main pagination lemma: from the top of the `while` loop, running against
the server holding `remaining` delivers exactly `remaining` to the client (in
order, after the pending hold-back), with trace `loopTrace`, consuming the
whole server script. -/
lemma exec_server {σ : Type} (cl : Client σ) (svc : ServiceRaw) (ps : Nat)
    (hps1 : 1 ≤ ps) (hps6 : ps ≤ DiscCharsMax) :
    ∀ (n : Nat) (remaining : List CharRaw), remaining.length ≤ n →
      ∀ (prev : Option CharRaw) (currH : Nat) (st : σ) (extra : List Event),
        charChain currH remaining →
        (∀ c ∈ remaining, c.handleValue ≤ svc.handleRange.endHandle) →
        currH < svc.handleRange.endHandle →
        exec cl (.charsAwait svc st currH prev)
            (serverScriptFrom svc.handleRange.endHandle ps remaining prev ++ extra) =
          (.fin (completeOutcome cl (foldClient cl st
              ((prev.toList ++ remaining).map toCharacteristic))),
           loopTrace svc.handleRange.endHandle ps remaining prev currH,
           extra) := by
  have hmax : max ps 1 = ps := Nat.max_eq_left hps1
  intro n
  induction n with
  | zero =>
      intro remaining hlen prev currH st extra hchain hbound hcurr
      have hnil : remaining = [] := List.eq_nil_of_length_eq_zero (Nat.le_zero.mp hlen)
      subst hnil
      simpa using exec_server_nil cl svc ps prev currH st extra
  | succ m ih =>
      intro remaining hlen prev currH st extra hchain hbound hcurr
      match remaining with
      | [] => simpa using exec_server_nil cl svc ps prev currH st extra
      | r :: rs =>
          have hpage : (r :: rs).take ps = r :: rs.take (ps - 1) := by
            rcases hp : ps with - | q
            · omega
            · rw [List.take_succ_cons]
              simp
          have hdrop : (r :: rs).drop ps = rs.drop (ps - 1) := by
            rcases hp : ps with - | q
            · omega
            · rw [List.drop_succ_cons]
              simp
          have hlenpage : (r :: rs.take (ps - 1)).length ≤ DiscCharsMax := by
            simp only [List.length_cons, List.length_take]
            omega
          -- the last characteristic of this page and the next cursor
          have hlastmem : (rs.take (ps - 1)).getLastD r ∈ r :: rs := by
            have h1 := List.getLastD_mem_cons (rs.take (ps - 1)) r
            rw [← hpage] at h1
            exact List.take_subset ps (r :: rs) h1
          have hlastv := charChain_mem (r :: rs) currH hchain _ hlastmem
          -- split the chain over the page
          have hchainR : charChain (((rs.take (ps - 1)).getLastD r).handleValue + 1)
              (rs.drop (ps - 1)) := by
            have h1 := charChain_take_drop (r :: rs) ps currH hchain
            rw [hpage, hdrop, chainLB_cons] at h1
            exact h1
          have hboundR : ∀ c ∈ rs.drop (ps - 1),
              c.handleValue ≤ svc.handleRange.endHandle := by
            intro c hc
            refine hbound c ?_
            rw [← hdrop] at hc
            exact List.drop_subset ps (r :: rs) hc
          -- unfold one round of the generator and the expected trace
          simp only [serverScriptFrom, loopTrace, hmax, List.cons_append]
          rw [hpage, hdrop]
          rw [exec_cons]
          rcases hRP : runPage cl svc st prev currH (r :: rs.take (ps - 1)) with ⟨resP, trP⟩
          have hstep : stepAt cl (.charsAwait svc st currH prev)
              (.evt (.charDisc BLE_GATT_STATUS_SUCCESS (r :: rs.take (ps - 1)))) =
              (resP, .req (.charPage ⟨currH, svc.handleRange.endHandle⟩) :: trP) := by
            rw [stepAt_chars_ok cl svc st currH prev _ _ hlenpage, hRP]
          have hps := runPage_server cl svc (r :: rs.take (ps - 1)) st prev currH
            ((if u16 (((rs.take (ps - 1)).getLastD r).handleValue + 1) <
                svc.handleRange.endHandle then
              serverScriptFrom svc.handleRange.endHandle ps (rs.drop (ps - 1))
                (some ((rs.take (ps - 1)).getLastD r))
            else lastDescEvts svc.handleRange.endHandle
                (some ((rs.take (ps - 1)).getLastD r))) ++ extra)
          rw [hRP] at hps
          rw [hstep, List.append_assoc, execSum_pre_cons, hps]
          clear hps hstep hRP
          rw [lastOf_cons, cursorAfter_cons]
          by_cases hlt : u16 (((rs.take (ps - 1)).getLastD r).handleValue + 1) <
              svc.handleRange.endHandle
          · -- another page follows
            have hlenR : (rs.drop (ps - 1)).length ≤ m := by
              simp only [List.length_drop]
              simp only [List.length_cons] at hlen
              omega
            have hchainR' : charChain (u16 (((rs.take (ps - 1)).getLastD r).handleValue + 1))
                (rs.drop (ps - 1)) :=
              charChain_mono _ _ _ (Nat.mod_le _ _) hchainR
            have hih := ih (rs.drop (ps - 1)) hlenR
              (some ((rs.take (ps - 1)).getLastD r))
              (u16 (((rs.take (ps - 1)).getLastD r).handleValue + 1))
              (foldClient cl st ((finalized prev (r :: rs.take (ps - 1))).map toCharacteristic))
              extra hchainR' hboundR hlt
            simp only [if_pos hlt, runPage, hdrop]
            simp only [execSum, List.nil_append]
            rw [hih]
            -- reassemble the client fold and close
            have hfold : foldClient cl
                (foldClient cl st ((finalized prev (r :: rs.take (ps - 1))).map
                  toCharacteristic))
                (((some ((rs.take (ps - 1)).getLastD r)).toList ++ rs.drop (ps - 1)).map
                  toCharacteristic) =
                foldClient cl st ((prev.toList ++ r :: rs).map toCharacteristic) := by
              rw [← foldClient_append, ← List.map_append]
              congr 1
              rw [← List.append_assoc]
              have h2 := finalized_lastOf (r :: rs.take (ps - 1)) prev
              rw [lastOf_cons] at h2
              rw [h2, List.append_assoc]
              congr 1
              rw [← hpage, ← hdrop, List.take_append_drop]
            rw [hfold]
          · -- the loop exits by the handle guard: no characteristics remain
            have hR0 : rs.drop (ps - 1) = [] := by
              rcases hR : rs.drop (ps - 1) with - | ⟨c0, R'⟩
              · rfl
              · exfalso
                rw [hR] at hchainR hboundR
                have hc0 := hboundR c0 (List.mem_cons_self c0 R')
                have hd := hchainR.1
                have hdv := hchainR.2.1
                have hv16 := hlastv.2
                simp only [u16] at hlt
                rcases Nat.lt_or_ge (((rs.take (ps - 1)).getLastD r).handleValue + 1)
                  65536 with h16 | h16
                · rw [Nat.mod_eq_of_lt h16] at hlt
                  omega
                · have : ((rs.take (ps - 1)).getLastD r).handleValue + 1 = 65536 := by omega
                  rw [this] at hlt
                  simp at hlt
                  omega
            simp only [if_neg hlt, runPage, hR0]
            have hfs := finalize_server cl svc
              (foldClient cl st ((finalized prev (r :: rs.take (ps - 1))).map toCharacteristic))
              (some ((rs.take (ps - 1)).getLastD r)) extra
            rw [hfs]
            have hfold : foldClient cl
                (foldClient cl st ((finalized prev (r :: rs.take (ps - 1))).map
                  toCharacteristic))
                ((some ((rs.take (ps - 1)).getLastD r)).toList.map toCharacteristic) =
                foldClient cl st ((prev.toList ++ r :: rs).map toCharacteristic) := by
              rw [← foldClient_append, ← List.map_append]
              congr 1
              have h2 := finalized_lastOf (r :: rs.take (ps - 1)) prev
              rw [lastOf_cons] at h2
              rw [h2]
              have h3 := List.take_append_drop ps (r :: rs)
              rw [hpage, hdrop, hR0, List.append_nil] at h3
              rw [h3]
            rw [hfold]

lemma reported_append (a b : List TraceItem) :
    reportedChars (a ++ b) = reportedChars a ++ reportedChars b :=
  List.filterMap_append a b _

lemma reported_finalizeTrace (p : CharRaw) (next : Option CharRaw) (svcEnd : Nat) :
    reportedChars (finalizeTrace p next svcEnd) = [toCharacteristic p] := by
  unfold finalizeTrace
  split <;> simp [reportedChars]

lemma reported_pageTrace (svcEnd : Nat) :
    ∀ (page : List CharRaw) (prev : Option CharRaw),
      reportedChars (pageTrace svcEnd prev page) =
        (finalized prev page).map toCharacteristic := by
  intro page
  induction page with
  | nil => intro prev; simp [pageTrace, finalized, reportedChars]
  | cons c cs ih =>
      intro prev
      cases prev with
      | none => simpa [pageTrace, finalized] using ih (some c)
      | some p =>
          simp only [pageTrace, finalized, reported_append, reported_finalizeTrace,
            List.map_cons, ih (some c)]
          rfl

lemma reported_lastTrace (svcEnd : Nat) (prev : Option CharRaw) :
    reportedChars (lastTrace svcEnd prev) = prev.toList.map toCharacteristic := by
  cases prev with
  | none => simp [lastTrace, reportedChars]
  | some p =>
      simp only [lastTrace, reported_append, reported_finalizeTrace]
      simp [reportedChars]

lemma reported_req_cons (r : Request) (tr : List TraceItem) :
    reportedChars (TraceItem.req r :: tr) = reportedChars tr := by
  simp [reportedChars]

/-- The expected trace reports exactly the remaining characteristics (after the
hold-back), once each, in order. -/
lemma reported_loopTrace (svcEnd ps : Nat) (hps1 : 1 ≤ ps) :
    ∀ (n : Nat) (remaining : List CharRaw), remaining.length ≤ n →
      ∀ (prev : Option CharRaw) (currH : Nat),
        charChain currH remaining →
        (∀ c ∈ remaining, c.handleValue ≤ svcEnd) →
        currH < svcEnd →
        reportedChars (loopTrace svcEnd ps remaining prev currH) =
          (prev.toList ++ remaining).map toCharacteristic := by
  have hmax : max ps 1 = ps := Nat.max_eq_left hps1
  intro n
  induction n with
  | zero =>
      intro remaining hlen prev currH hchain hbound hcurr
      have hnil : remaining = [] := List.eq_nil_of_length_eq_zero (Nat.le_zero.mp hlen)
      subst hnil
      simp [loopTrace, reported_req_cons, reported_lastTrace]
  | succ m ih =>
      intro remaining hlen prev currH hchain hbound hcurr
      match remaining with
      | [] => simp [loopTrace, reported_req_cons, reported_lastTrace]
      | r :: rs =>
          have hpage : (r :: rs).take ps = r :: rs.take (ps - 1) := by
            rcases hp : ps with - | q
            · omega
            · rw [List.take_succ_cons]
              simp
          have hdrop : (r :: rs).drop ps = rs.drop (ps - 1) := by
            rcases hp : ps with - | q
            · omega
            · rw [List.drop_succ_cons]
              simp
          have hlastmem : (rs.take (ps - 1)).getLastD r ∈ r :: rs := by
            have h1 := List.getLastD_mem_cons (rs.take (ps - 1)) r
            rw [← hpage] at h1
            exact List.take_subset ps (r :: rs) h1
          have hlastv := charChain_mem (r :: rs) currH hchain _ hlastmem
          have hchainR : charChain (((rs.take (ps - 1)).getLastD r).handleValue + 1)
              (rs.drop (ps - 1)) := by
            have h1 := charChain_take_drop (r :: rs) ps currH hchain
            rw [hpage, hdrop, chainLB_cons] at h1
            exact h1
          have hboundR : ∀ c ∈ rs.drop (ps - 1), c.handleValue ≤ svcEnd := by
            intro c hc
            refine hbound c ?_
            rw [← hdrop] at hc
            exact List.drop_subset ps (r :: rs) hc
          simp only [loopTrace, hmax]
          rw [hpage, hdrop]
          by_cases hlt : u16 (((rs.take (ps - 1)).getLastD r).handleValue + 1) < svcEnd
          · have hlenR : (rs.drop (ps - 1)).length ≤ m := by
              simp only [List.length_drop]
              simp only [List.length_cons] at hlen
              omega
            have hchainR' : charChain
                (u16 (((rs.take (ps - 1)).getLastD r).handleValue + 1)) (rs.drop (ps - 1)) :=
              charChain_mono _ _ _ (Nat.mod_le _ _) hchainR
            have hih := ih (rs.drop (ps - 1)) hlenR
              (some ((rs.take (ps - 1)).getLastD r))
              (u16 (((rs.take (ps - 1)).getLastD r).handleValue + 1))
              hchainR' hboundR hlt
            simp only [if_pos hlt]
            have hrep : reportedChars (TraceItem.req (.charPage ⟨currH, svcEnd⟩) ::
                (pageTrace svcEnd prev (r :: rs.take (ps - 1)) ++
                  loopTrace svcEnd ps (rs.drop (ps - 1))
                    (some ((rs.take (ps - 1)).getLastD r))
                    (u16 (((rs.take (ps - 1)).getLastD r).handleValue + 1)))) =
                reportedChars (pageTrace svcEnd prev (r :: rs.take (ps - 1))) ++
                  reportedChars (loopTrace svcEnd ps (rs.drop (ps - 1))
                    (some ((rs.take (ps - 1)).getLastD r))
                    (u16 (((rs.take (ps - 1)).getLastD r).handleValue + 1))) := by
              simp [reportedChars, List.filterMap_append]
            rw [hrep, hih, reported_pageTrace]
            rw [← List.map_append]
            congr 1
            rw [← List.append_assoc]
            have h2 := finalized_lastOf (r :: rs.take (ps - 1)) prev
            rw [lastOf_cons] at h2
            rw [h2, List.append_assoc]
            congr 1
            have h3 := List.take_append_drop ps (r :: rs)
            rw [hpage, hdrop] at h3
            exact h3
          · have hR0 : rs.drop (ps - 1) = [] := by
              rcases hR : rs.drop (ps - 1) with - | ⟨c0, R'⟩
              · rfl
              · exfalso
                rw [hR] at hchainR hboundR
                have hc0 := hboundR c0 (List.mem_cons_self c0 R')
                have hd := hchainR.1
                have hdv := hchainR.2.1
                have hv16 := hlastv.2
                simp only [u16] at hlt
                rcases Nat.lt_or_ge (((rs.take (ps - 1)).getLastD r).handleValue + 1)
                  65536 with h16 | h16
                · rw [Nat.mod_eq_of_lt h16] at hlt
                  omega
                · have h17 : ((rs.take (ps - 1)).getLastD r).handleValue + 1 = 65536 := by
                    omega
                  rw [h17] at hlt
                  simp at hlt
                  omega
            simp only [if_neg hlt]
            have hrep : reportedChars (TraceItem.req (.charPage ⟨currH, svcEnd⟩) ::
                (pageTrace svcEnd prev (r :: rs.take (ps - 1)) ++
                  lastTrace svcEnd (some ((rs.take (ps - 1)).getLastD r)))) =
                reportedChars (pageTrace svcEnd prev (r :: rs.take (ps - 1))) ++
                  reportedChars (lastTrace svcEnd (some ((rs.take (ps - 1)).getLastD r))) := by
              simp [reportedChars, List.filterMap_append]
            rw [hrep, reported_pageTrace, reported_lastTrace]
            rw [← List.map_append]
            congr 1
            have h2 := finalized_lastOf (r :: rs.take (ps - 1)) prev
            rw [lastOf_cons] at h2
            rw [h2]
            congr 1
            have h3 := List.take_append_drop ps (r :: rs)
            rw [hpage, hdrop, hR0, List.append_nil] at h3
            exact h3

end GattClient

namespace GattClient

/-! ### Claim theorems (first group) -/

/-- Claim C1: for every finalized characteristic, `discover_inner` computes the
descriptor search range as `[handle_value + 1, upperBound]` where the upper
bound is one below the next characteristic's declaration handle, or the
service's end handle for the last characteristic of the service; when that
range is empty the characteristic is reported immediately with no descriptors
and no descriptor request is handed to the transport (`.done`, no `.await`). -/
theorem C1_descriptor_range {σ : Type} (cl : Client σ) (svcEnd : Nat) (st : σ)
    (p : CharRaw) (next : Option CharRaw) :
    (descRange p next svcEnd).startHandle = u16 (p.handleValue + 1) ∧
    (descRange p next svcEnd).endHandle =
      (match next with
       | some c => u16 (c.handleDecl + 65535)
       | none => svcEnd) ∧
    discover_inner_pre cl svcEnd st p next =
      (if (descRange p next svcEnd).startHandle ≤ (descRange p next svcEnd).endHandle then
        .await (descRange p next svcEnd)
      else
        .done (cl.discovered_characteristic st (toCharacteristic p) [])
          [TraceItem.charCb (toCharacteristic p) []]) := by
  refine ⟨rfl, rfl, ?_⟩
  rw [discover_inner_pre]

/-- Claim C2: on the concrete scenario (service [1,20]; characteristic A with
declaration handle 2 and value handle 3; characteristic B with declaration
handle 5 and value handle 6), `discover` issues the descriptor request for A
over [4,4] and for B over [7,20], delivers A then B in that order to the
client, each with its descriptors, and finally runs the completeness check. -/
theorem C2_end_to_end :
    discover recClient scriptC2 =
      (.fin (.ok
        [(⟨some 0x2A19, 2, 3, 2, false⟩, [⟨some 0x2902, 4⟩]),
         (⟨some 0x2A1A, 5, 6, 2, false⟩, [⟨some 0x2902, 7⟩])]),
       [.req (.serviceLookup 42),
        .req (.charPage ⟨1, 20⟩),
        .req (.descLookup ⟨4, 4⟩),
        .charCb ⟨some 0x2A19, 2, 3, 2, false⟩ [⟨some 0x2902, 4⟩],
        .req (.charPage ⟨7, 20⟩),
        .req (.descLookup ⟨7, 20⟩),
        .charCb ⟨some 0x2A1A, 5, 6, 2, false⟩ [⟨some 0x2902, 7⟩],
        .completeCheck],
       []) := by
  rfl

/-- Claim C4: a `Disconnected` portal signal at any of the three await points
(service lookup, characteristic page, descriptor lookup) makes `discover`
return `Disconnected` immediately: the only further trace item is the request
whose reply it was awaiting — no further transport request is issued and no
held-back characteristic is delivered to the client. -/
theorem C4_disconnected_aborts_walk {σ : Type} (cl : Client σ) :
    (∀ w : WState σ,
      stepAt cl w .disconnected = (.inr (.err .disconnected), [.req (pendingReq cl w)])) ∧
    (∀ (s1 s2 : List Event) (w : WState σ) (tr : List TraceItem),
      discover cl s1 = (.stuck w, tr, []) →
      discover cl (s1 ++ .disconnected :: s2) =
        (.fin (.err .disconnected), tr ++ [.req (pendingReq cl w)], s2)) := by
  constructor
  · intro w
    rfl
  · intro s1 s2 w tr h
    unfold discover at h ⊢
    rw [exec_stuck_append cl s1 .svcAwait w tr (.disconnected :: s2) h]
    rw [exec_cons]
    rfl

/-- Claim C4 witness: a disconnect signalled while awaiting the first
characteristic page aborts the walk. -/
theorem C4_disconnected_aborts_walk_witness :
    discover recClient [.evt (.primSrvc BLE_GATT_STATUS_SUCCESS [svcC2]), .disconnected] =
      (.fin (.err .disconnected),
       [.req (.serviceLookup 42), .req (.charPage ⟨1, 20⟩)], []) :=
  (C4_disconnected_aborts_walk recClient).2
    [.evt (.primSrvc BLE_GATT_STATUS_SUCCESS [svcC2])] []
    (.charsAwait svcC2 [] 1 none) [.req (.serviceLookup 42)] rfl

/-- Claim C10: every request step runs `check_connected()?` before the `sd_*`
transport call, so a step that begins on an already-disconnected connection
returns `Disconnected` without issuing its request: the trace is unchanged
(first conjunct: step level, for each of the three await kinds; second
conjunct: `discover` propagates it immediately). -/
theorem C10_check_connected_before_request {σ : Type} (cl : Client σ) :
    (∀ w : WState σ, stepAt cl w .notConnected = (.inr (.err .disconnected), [])) ∧
    (∀ (s1 s2 : List Event) (w : WState σ) (tr : List TraceItem),
      discover cl s1 = (.stuck w, tr, []) →
      discover cl (s1 ++ .notConnected :: s2) = (.fin (.err .disconnected), tr, s2)) := by
  constructor
  · intro w
    rfl
  · intro s1 s2 w tr h
    unfold discover at h ⊢
    rw [exec_stuck_append cl s1 .svcAwait w tr (.notConnected :: s2) h]
    rw [exec_cons]
    simp [stepAt, execSum]

/-- Claim C10 witness: a dead connection at the first characteristic-page step
yields `Disconnected` with no characteristic-page request issued. -/
theorem C10_check_connected_before_request_witness :
    discover recClient [.evt (.primSrvc BLE_GATT_STATUS_SUCCESS [svcC2]), .notConnected] =
      (.fin (.err .disconnected), [.req (.serviceLookup 42)], []) :=
  (C10_check_connected_before_request recClient).2
    [.evt (.primSrvc BLE_GATT_STATUS_SUCCESS [svcC2])] []
    (.charsAwait svcC2 [] 1 none) [.req (.serviceLookup 42)] rfl

/-- Claim C7: the status mapping is total — every numeric status outside the
fixed known catalogue maps to `Unknown` (the `num_enum` default variant) rather
than failing, and the success status maps to the dedicated `Success` sentinel. -/
theorem C7_status_taxonomy_total :
    (∀ n : Nat, n ∉ knownStatusCodes → GattError.fromRaw n = .unknown) ∧
    GattError.fromRaw BLE_GATT_STATUS_SUCCESS = .success := by
  constructor
  · intro n hn
    simp only [knownStatusCodes, List.mem_cons, List.not_mem_nil, or_false, not_or] at hn
    obtain ⟨h1, h2, h3, h4, h5, h6, h7, h8, h9, h10, h11, h12, h13, h14, h15, h16, h17, h18,
      h19, h20, h21, h22, h23, h24⟩ := hn
    simp only [GattError.fromRaw, if_neg h1, if_neg h3, if_neg h4, if_neg h5, if_neg h6,
      if_neg h7, if_neg h8, if_neg h9, if_neg h10, if_neg h11, if_neg h12, if_neg h13,
      if_neg h14, if_neg h15, if_neg h16, if_neg h17, if_neg h18, if_neg h19, if_neg h20,
      if_neg h21, if_neg h22, if_neg h23, if_neg h24]
  · rfl

/-- Claim C7 witness: a value outside the catalogue maps to `Unknown`. -/
theorem C7_status_taxonomy_total_witness : GattError.fromRaw 0x0123 = .unknown :=
  C7_status_taxonomy_total.1 0x0123 (by decide)

/-- Well-formedness of a request's handle range (trivial for the service
lookup, which carries no range). -/
def rangeOK : Request → Prop
  | .serviceLookup _ => True
  | .charPage r => r.startHandle ≤ r.endHandle
  | .descLookup r => r.startHandle ≤ r.endHandle

/-- Invariant of the await states: a pending characteristic page only exists
while the cursor is strictly below the service end (the `while` guard), and a
pending descriptor lookup only exists for a non-empty range (the
`start_handle <= end_handle` guard of `discover_inner`). -/
def goodW {σ : Type} : WState σ → Prop
  | .svcAwait => True
  | .charsAwait svc _ currH _ => currH < svc.handleRange.endHandle
  | .descsAwait _ _ _ r _ => r.startHandle ≤ r.endHandle

lemma pendingReq_rangeOK {σ : Type} (cl : Client σ) (w : WState σ) (hw : goodW w) :
    rangeOK (pendingReq cl w) := by
  cases w with
  | svcAwait => trivial
  | charsAwait svc st currH prev => exact Nat.le_of_lt hw
  | descsAwait svc st p r k => exact hw

lemma discover_inner_pre_await {σ : Type} (cl : Client σ) (svcEnd : Nat) (st : σ)
    (p : CharRaw) (next : Option CharRaw) (r : HandleRange)
    (h : discover_inner_pre cl svcEnd st p next = .await r) :
    r.startHandle ≤ r.endHandle := by
  unfold discover_inner_pre at h
  split at h
  · cases h
    assumption
  · cases h

lemma discover_inner_pre_done {σ : Type} (cl : Client σ) (svcEnd : Nat) (st : σ)
    (p : CharRaw) (next : Option CharRaw) (st' : σ) (tr : List TraceItem)
    (h : discover_inner_pre cl svcEnd st p next = .done st' tr) :
    tr = [.charCb (toCharacteristic p) []] := by
  unfold discover_inner_pre at h
  split at h
  · cases h
  · cases h
    rfl

lemma discover_inner_post_trace {σ : Type} (cl : Client σ) (st : σ) (p : CharRaw)
    (ds : List DescRaw) (st' : σ) (tr : List TraceItem)
    (h : discover_inner_post cl st p ds = some (st', tr)) :
    ∀ r, TraceItem.req r ∉ tr := by
  rcases hb : buildDescriptors ds with - | descs
  · simp [discover_inner_post, hb] at h
  · simp only [discover_inner_post, hb, Option.some.injEq, Prod.mk.injEq] at h
    rw [← h.2]
    intro r
    simp

lemma finalizeLast_spec {σ : Type} (cl : Client σ) (svc : ServiceRaw) (st : σ)
    (prev : Option CharRaw) :
    (∀ w', (finalizeLast cl svc st prev).1 = .inl w' → goodW w') ∧
    (∀ r, TraceItem.req r ∉ (finalizeLast cl svc st prev).2) := by
  cases prev with
  | none =>
      refine ⟨fun w' h => ?_, fun r hr => ?_⟩
      · cases h
      · simp [finalizeLast, completeStep] at hr
  | some p =>
      rcases h : discover_inner_pre cl svc.handleRange.endHandle st p none with r | ⟨st', tr⟩
      · refine ⟨fun w' hw => ?_, fun r0 hr0 => ?_⟩
        · simp only [finalizeLast, h] at hw
          cases hw
          exact discover_inner_pre_await cl _ st p none r h
        · simp [finalizeLast, h] at hr0
      · refine ⟨fun w' hw => ?_, fun r0 hr0 => ?_⟩
        · simp only [finalizeLast, h, completeStep] at hw
          cases hw
        · simp only [finalizeLast, h, completeStep, List.mem_append] at hr0
          rcases hr0 with hr0 | hr0
          · rw [discover_inner_pre_done cl _ st p none st' tr h] at hr0
            simp at hr0
          · simp at hr0

lemma runPage_spec {σ : Type} (cl : Client σ) (svc : ServiceRaw) :
    ∀ (l : List CharRaw) (st : σ) (prev : Option CharRaw) (currH : Nat),
      (∀ w', (runPage cl svc st prev currH l).1 = .inl w' → goodW w') ∧
      (∀ r, TraceItem.req r ∉ (runPage cl svc st prev currH l).2) := by
  intro l
  induction l with
  | nil =>
      intro st prev currH
      by_cases h : currH < svc.handleRange.endHandle
      · refine ⟨fun w' hw => ?_, fun r hr => ?_⟩
        · simp only [runPage, if_pos h] at hw
          cases hw
          exact h
        · simp [runPage, if_pos h] at hr
      · have hfl := finalizeLast_spec cl svc st prev
        refine ⟨fun w' hw => ?_, fun r hr => ?_⟩
        · rw [runPage, if_neg h] at hw
          exact hfl.1 w' hw
        · rw [runPage, if_neg h] at hr
          exact hfl.2 r hr
  | cons c cs ih =>
      intro st prev currH
      cases prev with
      | none => exact ih st (some c) (u16 (c.handleValue + 1))
      | some p =>
          rcases h : discover_inner_pre cl svc.handleRange.endHandle st p (some c)
            with r | ⟨st', tr⟩
          · refine ⟨fun w' hw => ?_, fun r0 hr0 => ?_⟩
            · simp only [runPage, h] at hw
              cases hw
              exact discover_inner_pre_await cl _ st p (some c) r h
            · simp [runPage, h] at hr0
          · have hih := ih st' (some c) (u16 (c.handleValue + 1))
            refine ⟨fun w' hw => ?_, fun r0 hr0 => ?_⟩
            · simp only [runPage, h] at hw
              exact hih.1 w' hw
            · simp only [runPage, h, List.mem_append] at hr0
              rcases hr0 with hr0 | hr0
              · rw [discover_inner_pre_done cl _ st p (some c) st' tr h] at hr0
                simp at hr0
              · exact hih.2 r0 hr0

lemma handleMsg_spec {σ : Type} (cl : Client σ) (w : WState σ) (m : PortalMessage) :
    (∀ w', (handleMsg cl w m).1 = .inl w' → goodW w') ∧
    (∀ r, TraceItem.req r ∉ (handleMsg cl w m).2) := by
  cases w with
  | svcAwait =>
      cases m with
      | discoverService r =>
          cases r with
          | ok s => exact runPage_spec cl s [] cl.new_undiscovered none s.handleRange.startHandle
          | err e => exact ⟨(fun w' h => by cases h), (by simp [handleMsg])⟩
      | discoverCharacteristics r => exact ⟨(fun w' h => by cases h), (by simp [handleMsg])⟩
      | discoverDescriptors r => exact ⟨(fun w' h => by cases h), (by simp [handleMsg])⟩
      | disconnected => exact ⟨(fun w' h => by cases h), (by simp [handleMsg])⟩
  | charsAwait svc st currH prev =>
      cases m with
      | discoverService r => exact ⟨(fun w' h => by cases h), (by simp [handleMsg])⟩
      | discoverCharacteristics r =>
          cases r with
          | ok chars =>
              by_cases hc : chars.isEmpty
              · exact ⟨(fun w' h => by simp [handleMsg, hc] at h), (by simp [handleMsg, hc])⟩
              · have hrp := runPage_spec cl svc chars st prev currH
                refine ⟨fun w' h => ?_, fun r hr => ?_⟩
                · simp only [handleMsg, hc, Bool.false_eq_true, if_false] at h
                  exact hrp.1 w' h
                · simp only [handleMsg, hc, Bool.false_eq_true, if_false] at hr
                  exact hrp.2 r hr
          | err e =>
              by_cases he : e = .gatt .atterrAttributeNotFound
              · have hfl := finalizeLast_spec cl svc st prev
                refine ⟨fun w' h => ?_, fun r hr => ?_⟩
                · simp only [handleMsg, he, if_true] at h
                  exact hfl.1 w' h
                · simp only [handleMsg, he, if_true] at hr
                  exact hfl.2 r hr
              · exact ⟨(fun w' h => by simp [handleMsg, he] at h), (by simp [handleMsg, he])⟩
      | discoverDescriptors r => exact ⟨(fun w' h => by cases h), (by simp [handleMsg])⟩
      | disconnected => exact ⟨(fun w' h => by cases h), (by simp [handleMsg])⟩
  | descsAwait svc st p rng k =>
      cases m with
      | discoverService r => exact ⟨(fun w' h => by cases h), (by simp [handleMsg])⟩
      | discoverCharacteristics r => exact ⟨(fun w' h => by cases h), (by simp [handleMsg])⟩
      | discoverDescriptors r =>
          cases r with
          | ok ds =>
              rcases hpost : discover_inner_post cl st p ds with - | ⟨st', tr⟩
              · exact ⟨(fun w' h => by simp [handleMsg, hpost] at h),
                  (by simp [handleMsg, hpost])⟩
              · have htr := discover_inner_post_trace cl st p ds st' tr hpost
                cases k with
                | continuePage c cs =>
                    have hrp := runPage_spec cl svc cs st' (some c) (u16 (c.handleValue + 1))
                    refine ⟨fun w' h => ?_, fun r hr => ?_⟩
                    · simp only [handleMsg, hpost] at h
                      exact hrp.1 w' h
                    · simp only [handleMsg, hpost, List.mem_append] at hr
                      rcases hr with hr | hr
                      · exact htr r hr
                      · exact hrp.2 r hr
                | finish =>
                    refine ⟨fun w' h => ?_, fun r hr => ?_⟩
                    · simp only [handleMsg, hpost, completeStep] at h
                      cases h
                    · simp only [handleMsg, hpost, completeStep, List.mem_append] at hr
                      rcases hr with hr | hr
                      · exact htr r hr
                      · simp at hr
          | err e => exact ⟨(fun w' h => by cases h), (by simp [handleMsg])⟩
      | disconnected => exact ⟨(fun w' h => by cases h), (by simp [handleMsg])⟩

lemma stepAt_spec {σ : Type} (cl : Client σ) (w : WState σ) (e : Event) (hw : goodW w) :
    (∀ w', (stepAt cl w e).1 = .inl w' → goodW w') ∧
    (∀ r, TraceItem.req r ∈ (stepAt cl w e).2 → rangeOK r) := by
  cases e with
  | notConnected => exact ⟨(fun w' h => by cases h), (fun r hr => by simp [stepAt] at hr)⟩
  | reject code =>
      refine ⟨(fun w' h => by cases h), fun r hr => ?_⟩
      simp only [stepAt, List.mem_singleton, TraceItem.req.injEq] at hr
      rw [hr]
      exact pendingReq_rangeOK cl w hw
  | disconnected =>
      refine ⟨(fun w' h => by cases h), fun r hr => ?_⟩
      simp only [stepAt, List.mem_singleton, TraceItem.req.injEq] at hr
      rw [hr]
      exact pendingReq_rangeOK cl w hw
  | evt g =>
      rcases hd : dispatch g with - | m
      · refine ⟨(fun w' h => by simp [stepAt, hd] at h), fun r hr => ?_⟩
        simp only [stepAt, hd, List.mem_singleton, TraceItem.req.injEq] at hr
        rw [hr]
        exact pendingReq_rangeOK cl w hw
      · have hm := handleMsg_spec cl w m
        refine ⟨fun w' h => ?_, fun r hr => ?_⟩
        · simp only [stepAt, hd] at h
          exact hm.1 w' h
        · simp only [stepAt, hd, List.mem_cons] at hr
          rcases hr with hr | hr
          · cases hr
            exact pendingReq_rangeOK cl w hw
          · exact absurd hr (hm.2 r)

lemma exec_reqs_rangeOK {σ : Type} (cl : Client σ) :
    ∀ (script : List Event) (w : WState σ), goodW w →
      ∀ r, TraceItem.req r ∈ (exec cl w script).2.1 → rangeOK r := by
  intro script
  induction script with
  | nil => intro w hw r hr; simp [exec] at hr
  | cons e rest ih =>
      intro w hw r hr
      rw [exec_cons] at hr
      rcases hst : stepAt cl w e with ⟨res, tr⟩
      have hspec := stepAt_spec cl w e hw
      rw [hst] at hr hspec
      cases res with
      | inr o =>
          simp only [execSum] at hr
          exact hspec.2 r hr
      | inl w' =>
          simp only [execSum, List.mem_append] at hr
          rcases hr with hr | hr
          · exact hspec.2 r hr
          · exact ih w' (hspec.1 w' rfl) r hr

/-- Claim C8: every handle range handed to a characteristic-discovery or
descriptor-discovery transport request satisfies `start ≤ end`: the pagination
loop only issues a page while the cursor is below the service end, and
descriptor discovery is skipped when its computed range is empty. -/
theorem C8_issued_ranges_wellformed {σ : Type} (cl : Client σ) (script : List Event)
    (hr : HandleRange)
    (h : TraceItem.req (.charPage hr) ∈ (discover cl script).2.1 ∨
         TraceItem.req (.descLookup hr) ∈ (discover cl script).2.1) :
    hr.startHandle ≤ hr.endHandle := by
  rcases h with h | h
  · exact exec_reqs_rangeOK cl script .svcAwait trivial (.charPage hr) h
  · exact exec_reqs_rangeOK cl script .svcAwait trivial (.descLookup hr) h

/-- Claim C8 witness: the descriptor request over [4,4] issued in the concrete
scenario has a well-formed range. -/
theorem C8_issued_ranges_wellformed_witness :
    (⟨4, 4⟩ : HandleRange).startHandle ≤ (⟨4, 4⟩ : HandleRange).endHandle :=
  C8_issued_ranges_wellformed recClient scriptC2 ⟨4, 4⟩ (Or.inr (by decide))

/-- A status outside the catalogue takes the `num_enum` default branch. -/
lemma fromRaw_default (n : Nat) (hn : n ∉ knownStatusCodes) :
    GattError.fromRaw n = .unknown := by
  simp only [knownStatusCodes, List.mem_cons, List.not_mem_nil, or_false, not_or] at hn
  obtain ⟨h1, h2, h3, h4, h5, h6, h7, h8, h9, h10, h11, h12, h13, h14, h15, h16, h17, h18,
    h19, h20, h21, h22, h23, h24⟩ := hn
  simp only [GattError.fromRaw, if_neg h1, if_neg h3, if_neg h4, if_neg h5, if_neg h6,
    if_neg h7, if_neg h8, if_neg h9, if_neg h10, if_neg h11, if_neg h12, if_neg h13,
    if_neg h14, if_neg h15, if_neg h16, if_neg h17, if_neg h18, if_neg h19, if_neg h20,
    if_neg h21, if_neg h22, if_neg h23, if_neg h24]

/-- Only the raw attribute-not-found status maps to the corresponding enum
member. -/
lemma fromRaw_attnf_iff (n : Nat) :
    GattError.fromRaw n = .atterrAttributeNotFound ↔
      n = BLE_GATT_STATUS_ATTERR_ATTRIBUTE_NOT_FOUND := by
  constructor
  · intro h
    by_cases hmem : n ∈ knownStatusCodes
    · simp only [knownStatusCodes, List.mem_cons, List.not_mem_nil, or_false] at hmem
      rcases hmem with rfl | rfl | rfl | rfl | rfl | rfl | rfl | rfl | rfl | rfl | rfl | rfl |
        rfl | rfl | rfl | rfl | rfl | rfl | rfl | rfl | rfl | rfl | rfl | rfl
      all_goals first
        | rfl
        | exact absurd h (by decide)
    · rw [fromRaw_default n hmem] at h
      exact absurd h (by decide)
  · intro h
    subst h
    rfl

/-- Error payloads producible by the event-dispatch boundary: characteristic
and descriptor responses only ever carry `Gatt` errors. -/
def msgOK : PortalMessage → Prop
  | .discoverCharacteristics (.err e) => ∃ ge, e = .gatt ge
  | .discoverDescriptors (.err e) => ∃ ge, e = .gatt ge
  | .disconnected => False
  | _ => True

lemma dispatch_msgOK (g : GattcEvt) (m : PortalMessage) (h : dispatch g = some m) :
    msgOK m := by
  cases g with
  | primSrvc status services =>
      simp only [dispatch, on_prim_srvc_disc_rsp, check_status] at h
      split at h
      · rcases services with - | ⟨s, ss⟩ <;>
          · simp only [Option.map_some', Option.some.injEq] at h
            subst h
            trivial
      · simp only [Option.map_some', Option.some.injEq] at h
        subst h
        trivial
  | charDisc status chars =>
      simp only [dispatch, on_char_disc_rsp, check_status] at h
      split at h
      · split at h
        · simp only [Option.map_some', Option.some.injEq] at h
          subst h
          trivial
        · simp at h
      · simp only [Option.map_some', Option.some.injEq] at h
        subst h
        exact ⟨_, rfl⟩
  | descDisc status descs =>
      simp only [dispatch, on_desc_disc_rsp, check_status] at h
      split at h
      · split at h
        · simp only [Option.map_some', Option.some.injEq] at h
          subst h
          trivial
        · simp at h
      · simp only [Option.map_some', Option.some.injEq] at h
        subst h
        exact ⟨_, rfl⟩

/-- Shape of a failed service-lookup message coming out of the dispatcher. -/
lemma dispatch_service_err (g : GattcEvt) (e0 : DiscoverError)
    (h : dispatch g = some (.discoverService (.err e0))) :
    ∃ status svcs, g = .primSrvc status svcs ∧
      ((status = BLE_GATT_STATUS_SUCCESS ∧ svcs = [] ∧ e0 = .serviceNotFound) ∨
       (¬ status = BLE_GATT_STATUS_SUCCESS ∧ e0 = .gatt (GattError.fromRaw status))) := by
  cases g with
  | primSrvc status services =>
      refine ⟨status, services, rfl, ?_⟩
      simp only [dispatch, on_prim_srvc_disc_rsp, check_status] at h
      split at h
      · rcases services with - | ⟨s, ss⟩
        · simp only [Option.map_some', Option.some.injEq,
            PortalMessage.discoverService.injEq, GRes.err.injEq] at h
          exact Or.inl ⟨by assumption, rfl, h.symm⟩
        · simp at h
      · simp only [Option.map_some', Option.some.injEq,
          PortalMessage.discoverService.injEq, GRes.err.injEq] at h
        exact Or.inr ⟨by assumption, h.symm⟩
  | charDisc status chars =>
      simp only [dispatch, on_char_disc_rsp, check_status] at h
      split at h
      · split at h <;> simp at h
      · simp at h
  | descDisc status descs =>
      simp only [dispatch, on_desc_disc_rsp, check_status] at h
      split at h
      · split at h <;> simp at h
      · simp at h

/-- Trait contract of `Client::discovery_complete` (its doc comment): the
completion check reports `ServiceIncomplete` (or success), never
`ServiceNotFound`. -/
def NoSNFClient {σ : Type} (cl : Client σ) : Prop :=
  ∀ st, cl.discovery_complete st ≠ .err .serviceNotFound

lemma completeOutcome_ne_snf {σ : Type} (cl : Client σ) (hcl : NoSNFClient cl) (st : σ) :
    completeOutcome cl st ≠ .err .serviceNotFound := by
  unfold completeOutcome
  rcases h : cl.discovery_complete st with st' | e
  · simp
  · intro hc
    simp only [Outcome.err.injEq] at hc
    subst hc
    exact hcl st h

lemma finalizeLast_post {σ : Type} (cl : Client σ) (hcl : NoSNFClient cl)
    (svc : ServiceRaw) (st : σ) (prev : Option CharRaw) :
    (∀ w', (finalizeLast cl svc st prev).1 = .inl w' → w' ≠ .svcAwait) ∧
    (∀ o, (finalizeLast cl svc st prev).1 = .inr o → o ≠ .err .serviceNotFound) := by
  cases prev with
  | none =>
      refine ⟨fun w' h => ?_, fun o h ho => ?_⟩
      · cases h
      · simp only [finalizeLast, completeStep, Sum.inr.injEq] at h
        subst h
        exact completeOutcome_ne_snf cl hcl st ho
  | some p =>
      rcases h : discover_inner_pre cl svc.handleRange.endHandle st p none with r | ⟨st', tr⟩
      · refine ⟨fun w' hw => ?_, fun o ho => ?_⟩
        · simp only [finalizeLast, h] at hw
          cases hw
          intro hc
          cases hc
        · simp only [finalizeLast, h] at ho
          cases ho
      · refine ⟨fun w' hw => ?_, fun o ho hsnf => ?_⟩
        · simp only [finalizeLast, h, completeStep] at hw
          cases hw
        · simp only [finalizeLast, h, completeStep, Sum.inr.injEq] at ho
          subst ho
          exact completeOutcome_ne_snf cl hcl st' hsnf

lemma runPage_post {σ : Type} (cl : Client σ) (hcl : NoSNFClient cl) (svc : ServiceRaw) :
    ∀ (l : List CharRaw) (st : σ) (prev : Option CharRaw) (currH : Nat),
      (∀ w', (runPage cl svc st prev currH l).1 = .inl w' → w' ≠ .svcAwait) ∧
      (∀ o, (runPage cl svc st prev currH l).1 = .inr o → o ≠ .err .serviceNotFound) := by
  intro l
  induction l with
  | nil =>
      intro st prev currH
      by_cases h : currH < svc.handleRange.endHandle
      · refine ⟨fun w' hw => ?_, fun o ho => ?_⟩
        · simp only [runPage, if_pos h] at hw
          cases hw
          intro hc
          cases hc
        · simp only [runPage, if_pos h] at ho
          cases ho
      · have hfl := finalizeLast_post cl hcl svc st prev
        refine ⟨fun w' hw => ?_, fun o ho => ?_⟩
        · rw [runPage, if_neg h] at hw
          exact hfl.1 w' hw
        · rw [runPage, if_neg h] at ho
          exact hfl.2 o ho
  | cons c cs ih =>
      intro st prev currH
      cases prev with
      | none => exact ih st (some c) (u16 (c.handleValue + 1))
      | some p =>
          rcases h : discover_inner_pre cl svc.handleRange.endHandle st p (some c)
            with r | ⟨st', tr⟩
          · refine ⟨fun w' hw => ?_, fun o ho => ?_⟩
            · simp only [runPage, h] at hw
              cases hw
              intro hc
              cases hc
            · simp only [runPage, h] at ho
              cases ho
          · have hih := ih st' (some c) (u16 (c.handleValue + 1))
            refine ⟨fun w' hw => ?_, fun o ho => ?_⟩
            · simp only [runPage, h] at hw
              exact hih.1 w' hw
            · simp only [runPage, h] at ho
              exact hih.2 o ho

lemma handleMsg_post {σ : Type} (cl : Client σ) (hcl : NoSNFClient cl) (w : WState σ)
    (m : PortalMessage) (hw : w ≠ .svcAwait) (hm : msgOK m) :
    (∀ w', (handleMsg cl w m).1 = .inl w' → w' ≠ .svcAwait) ∧
    (∀ o, (handleMsg cl w m).1 = .inr o → o ≠ .err .serviceNotFound) := by
  cases w with
  | svcAwait => exact absurd rfl hw
  | charsAwait svc st currH prev =>
      cases m with
      | discoverService r =>
          exact ⟨(fun w' h => by cases h), (fun o h => by cases h; simp)⟩
      | discoverCharacteristics r =>
          cases r with
          | ok chars =>
              by_cases hc : chars.isEmpty
              · refine ⟨fun w' h => ?_, fun o h => ?_⟩
                · simp [handleMsg, hc] at h
                · simp only [handleMsg, hc, if_true, Sum.inr.injEq] at h
                  subst h
                  simp
              · have hrp := runPage_post cl hcl svc chars st prev currH
                refine ⟨fun w' h => ?_, fun o h => ?_⟩
                · simp only [handleMsg, hc, Bool.false_eq_true, if_false] at h
                  exact hrp.1 w' h
                · simp only [handleMsg, hc, Bool.false_eq_true, if_false] at h
                  exact hrp.2 o h
          | err e =>
              obtain ⟨ge, rfl⟩ := hm
              by_cases he : DiscoverError.gatt ge = .gatt .atterrAttributeNotFound
              · have hfl := finalizeLast_post cl hcl svc st prev
                refine ⟨fun w' h => ?_, fun o h => ?_⟩
                · simp only [handleMsg, he, if_true] at h
                  exact hfl.1 w' h
                · simp only [handleMsg, he, if_true] at h
                  exact hfl.2 o h
              · refine ⟨fun w' h => ?_, fun o h => ?_⟩
                · simp [handleMsg, he] at h
                · simp only [handleMsg, he, if_false, Sum.inr.injEq] at h
                  subst h
                  simp
      | discoverDescriptors r =>
          exact ⟨(fun w' h => by cases h), (fun o h => by cases h; simp)⟩
      | disconnected => exact absurd hm (by simp [msgOK])
  | descsAwait svc st p rng k =>
      cases m with
      | discoverService r =>
          exact ⟨(fun w' h => by cases h), (fun o h => by cases h; simp)⟩
      | discoverCharacteristics r =>
          exact ⟨(fun w' h => by cases h), (fun o h => by cases h; simp)⟩
      | discoverDescriptors r =>
          cases r with
          | ok ds =>
              rcases hpost : discover_inner_post cl st p ds with - | ⟨st', tr⟩
              · refine ⟨fun w' h => ?_, fun o h => ?_⟩
                · simp [handleMsg, hpost] at h
                · simp only [handleMsg, hpost, Sum.inr.injEq] at h
                  subst h
                  simp
              · cases k with
                | continuePage c cs =>
                    have hrp := runPage_post cl hcl svc cs st' (some c) (u16 (c.handleValue + 1))
                    refine ⟨fun w' h => ?_, fun o h => ?_⟩
                    · simp only [handleMsg, hpost] at h
                      exact hrp.1 w' h
                    · simp only [handleMsg, hpost] at h
                      exact hrp.2 o h
                | finish =>
                    refine ⟨fun w' h => ?_, fun o h hsnf => ?_⟩
                    · simp only [handleMsg, hpost, completeStep] at h
                      cases h
                    · simp only [handleMsg, hpost, completeStep, Sum.inr.injEq] at h
                      subst h
                      exact completeOutcome_ne_snf cl hcl st' hsnf
          | err e =>
              obtain ⟨ge, rfl⟩ := hm
              refine ⟨(fun w' h => by cases h), fun o h => ?_⟩
              simp only [handleMsg, Sum.inr.injEq] at h
              subst h
              simp
      | disconnected => exact absurd hm (by simp [msgOK])

lemma stepAt_post {σ : Type} (cl : Client σ) (hcl : NoSNFClient cl) (w : WState σ)
    (e : Event) (hw : w ≠ .svcAwait) :
    (∀ w', (stepAt cl w e).1 = .inl w' → w' ≠ .svcAwait) ∧
    (∀ o, (stepAt cl w e).1 = .inr o → o ≠ .err .serviceNotFound) := by
  cases e with
  | notConnected =>
      exact ⟨(fun w' h => by cases h), (fun o h => by cases h; simp)⟩
  | reject code =>
      exact ⟨(fun w' h => by cases h), (fun o h => by cases h; simp)⟩
  | disconnected =>
      exact ⟨(fun w' h => by cases h), (fun o h => by cases h; simp)⟩
  | evt g =>
      rcases hd : dispatch g with - | m
      · refine ⟨fun w' h => ?_, fun o h => ?_⟩
        · simp [stepAt, hd] at h
        · simp only [stepAt, hd, Sum.inr.injEq] at h
          subst h
          simp
      · have hmsg := handleMsg_post cl hcl w m hw (dispatch_msgOK g m hd)
        refine ⟨fun w' h => ?_, fun o h => ?_⟩
        · simp only [stepAt, hd] at h
          exact hmsg.1 w' h
        · simp only [stepAt, hd] at h
          exact hmsg.2 o h

/-- Once the walk is past the initial service lookup, no continuation can ever
produce `ServiceNotFound` (for a contract-abiding client). -/
lemma exec_ne_snf {σ : Type} (cl : Client σ) (hcl : NoSNFClient cl) :
    ∀ (script : List Event) (w : WState σ), w ≠ .svcAwait →
      (exec cl w script).1 ≠ .fin (.err .serviceNotFound) := by
  intro script
  induction script with
  | nil => intro w hw h; simp [exec] at h
  | cons e rest ih =>
      intro w hw h
      rw [exec_cons] at h
      rcases hst : stepAt cl w e with ⟨res, tr⟩
      have hpost := stepAt_post cl hcl w e hw
      rw [hst] at h hpost
      cases res with
      | inr o =>
          simp only [execSum, RunResult.fin.injEq] at h
          exact hpost.2 o rfl h
      | inl w' =>
          simp only [execSum] at h
          exact ih w' (hpost.1 w' rfl) h

lemma handleMsg_svc_ok {σ : Type} (cl : Client σ) (s : ServiceRaw) :
    handleMsg cl .svcAwait (.discoverService (.ok s)) = startLoop cl s := rfl

/-- Claim C5: `discover` returns `ServiceNotFound` exactly when the initial
primary-service lookup yields a successful response enumerating zero services
or fails with the attribute-protocol attribute-not-found status; an
attribute-not-found failure during descriptor lookup propagates unchanged as a
`Gatt` error.  The hypothesis is the `Client` trait contract (trait doc
comment): the completion check reports `ServiceIncomplete` on missing
characteristics, never `ServiceNotFound`. -/
theorem C5_service_not_found_exactly {σ : Type} (cl : Client σ)
    (hcl : ∀ st, cl.discovery_complete st ≠ GRes.err .serviceNotFound) :
    (∀ script : List Event,
      (discover cl script).1 = .fin (.err .serviceNotFound) ↔
        (∃ e rest, script = e :: rest ∧
          (e = .evt (.primSrvc BLE_GATT_STATUS_SUCCESS []) ∨
           ∃ svcs, e = .evt (.primSrvc BLE_GATT_STATUS_ATTERR_ATTRIBUTE_NOT_FOUND svcs)))) ∧
    (∀ (s1 s2 : List Event) (ds : List DescRaw) (svc : ServiceRaw) (st : σ) (p : CharRaw)
        (rng : HandleRange) (k : Cont) (tr : List TraceItem),
      discover cl s1 = (.stuck (.descsAwait svc st p rng k), tr, []) →
      discover cl
          (s1 ++ .evt (.descDisc BLE_GATT_STATUS_ATTERR_ATTRIBUTE_NOT_FOUND ds) :: s2) =
        (.fin (.err (.gatt .atterrAttributeNotFound)), tr ++ [.req (.descLookup rng)], s2)) := by
  constructor
  · intro script
    constructor
    · intro h
      match script with
      | [] => simp [discover, exec] at h
      | e :: rest =>
          refine ⟨e, rest, rfl, ?_⟩
          rw [discover, exec_cons] at h
          match e with
          | .notConnected => simp [stepAt, execSum] at h
          | .reject code => simp [stepAt, execSum] at h
          | .disconnected => simp [stepAt, execSum] at h
          | .evt g =>
              rcases hd : dispatch g with - | m
              · simp [stepAt, hd, execSum] at h
              · rcases hm : handleMsg cl .svcAwait m with ⟨res, tr⟩
                cases res with
                | inl w' =>
                    have h' : (exec cl w' rest).1 = .fin (.err .serviceNotFound) := by
                      simp only [stepAt, hd, hm, execSum] at h
                      exact h
                    rcases m with r | r | r | -
                    · rcases r with s | e0
                      · have hns : w' ≠ .svcAwait := by
                          have hfst : (runPage cl s cl.new_undiscovered none
                              s.handleRange.startHandle []).1 = .inl w' :=
                            congrArg Prod.fst hm
                          exact (runPage_post cl hcl s [] cl.new_undiscovered none
                            s.handleRange.startHandle).1 w' hfst
                        exact absurd h' (exec_ne_snf cl hcl rest w' hns)
                      · simp [handleMsg] at hm
                    · simp [handleMsg] at hm
                    · simp [handleMsg] at hm
                    · simp [handleMsg] at hm
                | inr o =>
                    have ho : o = .err .serviceNotFound := by
                      simp only [stepAt, hd, hm, execSum, RunResult.fin.injEq] at h
                      exact h
                    subst ho
                    rcases m with r | r | r | -
                    · rcases r with s | e0
                      · have hfst : (runPage cl s cl.new_undiscovered none
                            s.handleRange.startHandle []).1 = .inr (.err .serviceNotFound) :=
                          congrArg Prod.fst hm
                        exact absurd rfl ((runPage_post cl hcl s [] cl.new_undiscovered none
                          s.handleRange.startHandle).2 _ hfst)
                      · obtain ⟨status, svcs, rfl, hshape⟩ := dispatch_service_err g e0 hd
                        rcases hshape with ⟨hs0, hsvcs, he0⟩ | ⟨hsne, he0⟩
                        · subst hs0
                          subst hsvcs
                          exact Or.inl rfl
                        · by_cases hfr : GattError.fromRaw status = .atterrAttributeNotFound
                          · refine Or.inr ⟨svcs, ?_⟩
                            rw [(fromRaw_attnf_iff status).mp hfr]
                          · exfalso
                            have hneq : e0 ≠ .gatt .atterrAttributeNotFound := by
                              rw [he0]
                              intro hc
                              simp only [DiscoverError.gatt.injEq] at hc
                              exact hfr hc
                            simp only [handleMsg, hneq, if_false, Prod.mk.injEq,
                              Sum.inr.injEq, Outcome.err.injEq] at hm
                            rw [he0] at hm
                            cases hm.1
                    · simp [handleMsg] at hm
                    · simp [handleMsg] at hm
                    · simp only [handleMsg, Prod.mk.injEq, Sum.inr.injEq,
                        Outcome.err.injEq] at hm
                      cases hm.1
    · rintro ⟨e, rest, rfl, he | ⟨svcs, he⟩⟩
      · subst he
        rfl
      · subst he
        rfl
  · intro s1 s2 ds svc st p rng k tr h
    unfold discover at h ⊢
    rw [exec_stuck_append cl s1 .svcAwait (.descsAwait svc st p rng k) tr _ h]
    rw [exec_cons]
    rfl

/-- Claim C5 witness: a zero-match lookup response yields `ServiceNotFound`,
and an attribute-not-found on a descriptor lookup propagates as a `Gatt`
error. -/
theorem C5_service_not_found_exactly_witness :
    (discover recClient [Event.evt (.primSrvc BLE_GATT_STATUS_SUCCESS [])]).1 =
      .fin (.err .serviceNotFound) ∧
    discover recClient
        ([.evt (.primSrvc BLE_GATT_STATUS_SUCCESS [svcC2]),
          .evt (.charDisc BLE_GATT_STATUS_SUCCESS [charA, charB])] ++
         .evt (.descDisc BLE_GATT_STATUS_ATTERR_ATTRIBUTE_NOT_FOUND []) :: []) =
      (.fin (.err (.gatt .atterrAttributeNotFound)),
       [.req (.serviceLookup 42), .req (.charPage ⟨1, 20⟩)] ++ [.req (.descLookup ⟨4, 4⟩)],
       []) :=
  ⟨((C5_service_not_found_exactly recClient (fun st => by simp [recClient])).1 _).mpr
      ⟨_, [], rfl, Or.inl rfl⟩,
   (C5_service_not_found_exactly recClient (fun st => by simp [recClient])).2
      [.evt (.primSrvc BLE_GATT_STATUS_SUCCESS [svcC2]),
       .evt (.charDisc BLE_GATT_STATUS_SUCCESS [charA, charB])] [] [] svcC2 [] charA
      ⟨4, 4⟩ (.continuePage charB []) [.req (.serviceLookup 42), .req (.charPage ⟨1, 20⟩)]
      rfl⟩

lemma foldClient_count : ∀ (l : List Characteristic) (n : Nat),
    foldClient countClient n l = n + l.length := by
  intro l
  induction l with
  | nil => intro n; simp [foldClient]
  | cons c cs ih =>
      intro n
      rw [foldClient_cons, ih]
      simp [countClient]
      omega

/-- Full run against the server: service found, pagination walks all
characteristics, completion check runs. Shared by the C3 and C6 theorems. -/
lemma discover_server_run {σ : Type} (cl : Client σ) (svc : ServiceRaw)
    (chars : List CharRaw) (ps : Nat)
    (hps1 : 1 ≤ ps) (hps6 : ps ≤ DiscCharsMax)
    (hchain : charChain svc.handleRange.startHandle chars)
    (hbound : ∀ c ∈ chars, c.handleValue ≤ svc.handleRange.endHandle)
    (hstart : svc.handleRange.startHandle < svc.handleRange.endHandle) :
    discover cl (.evt (.primSrvc BLE_GATT_STATUS_SUCCESS [svc]) ::
        serverScriptFrom svc.handleRange.endHandle ps chars none) =
      (.fin (completeOutcome cl
          (foldClient cl cl.new_undiscovered (chars.map toCharacteristic))),
       .req (.serviceLookup cl.uuid) ::
         loopTrace svc.handleRange.endHandle ps chars none svc.handleRange.startHandle,
       []) := by
  unfold discover
  rw [exec_cons]
  have hstep : stepAt cl .svcAwait (.evt (.primSrvc BLE_GATT_STATUS_SUCCESS [svc])) =
      (.inl (.charsAwait svc cl.new_undiscovered svc.handleRange.startHandle none),
       [.req (.serviceLookup cl.uuid)]) := by
    rw [stepAt_svc_ok]
    have hSL : startLoop cl svc = (.inl (.charsAwait svc cl.new_undiscovered
        svc.handleRange.startHandle none), ([] : List TraceItem)) := by
      simp only [startLoop, runPage, if_pos hstart]
    rw [hSL]
  rw [hstep]
  have hexec := exec_server cl svc ps hps1 hps6 chars.length chars le_rfl none
    svc.handleRange.startHandle cl.new_undiscovered [] hchain hbound hstart
  rw [List.append_nil] at hexec
  simp only [execSum, hexec]
  simp

/-- Claim C3: running `discover` against a server holding a well-formed,
handle-ascending characteristic list: each page request starts one past the
last returned characteristic's value handle (the page starts recorded in
`loopTrace`), the attribute-not-found failure ending pagination is normal
termination (the walk reaches the completion check instead of erring), and
every characteristic of the service is delivered to the client exactly once,
in ascending handle order, across multiple pages. -/
theorem C3_pagination_enumerates_once {σ : Type} (cl : Client σ) (svc : ServiceRaw)
    (chars : List CharRaw) (ps : Nat)
    (hps1 : 1 ≤ ps) (hps6 : ps ≤ DiscCharsMax)
    (hchain : charChain svc.handleRange.startHandle chars)
    (hbound : ∀ c ∈ chars, c.handleValue ≤ svc.handleRange.endHandle)
    (hne : chars ≠ []) :
    discover cl (.evt (.primSrvc BLE_GATT_STATUS_SUCCESS [svc]) ::
        serverScriptFrom svc.handleRange.endHandle ps chars none) =
      (.fin (completeOutcome cl
          (foldClient cl cl.new_undiscovered (chars.map toCharacteristic))),
       .req (.serviceLookup cl.uuid) ::
         loopTrace svc.handleRange.endHandle ps chars none svc.handleRange.startHandle,
       []) ∧
    reportedChars (TraceItem.req (.serviceLookup cl.uuid) ::
        loopTrace svc.handleRange.endHandle ps chars none svc.handleRange.startHandle) =
      chars.map toCharacteristic := by
  have hstart : svc.handleRange.startHandle < svc.handleRange.endHandle := by
    rcases chars with - | ⟨c, cs⟩
    · exact absurd rfl hne
    · have h1 := hchain.1
      have h2 := hchain.2.1
      have h3 := hbound c (List.mem_cons_self c cs)
      omega
  constructor
  · exact discover_server_run cl svc chars ps hps1 hps6 hchain hbound hstart
  · rw [reported_req_cons]
    have h := reported_loopTrace svc.handleRange.endHandle ps hps1 chars.length chars
      le_rfl none svc.handleRange.startHandle hchain hbound hstart
    simpa using h

/-- Claim C3 witness: a two-characteristic service walked with page size 1
(two pages) enumerates both characteristics once, in order. -/
theorem C3_pagination_enumerates_once_witness :
    (discover recClient (.evt (.primSrvc BLE_GATT_STATUS_SUCCESS [svcC2]) ::
        serverScriptFrom svcC2.handleRange.endHandle 1 [charA, charB] none)).1 =
      .fin (.ok [(⟨some 0x2A19, 2, 3, 2, false⟩, ([] : List Descriptor)),
                 (⟨some 0x2A1A, 5, 6, 2, false⟩, [])]) ∧
    reportedChars (TraceItem.req (.serviceLookup recClient.uuid) ::
        loopTrace svcC2.handleRange.endHandle 1 [charA, charB] none
          svcC2.handleRange.startHandle) =
      [⟨some 0x2A19, 2, 3, 2, false⟩, ⟨some 0x2A1A, 5, 6, 2, false⟩] := by
  have h := C3_pagination_enumerates_once recClient svcC2 [charA, charB] 1
    (by decide) (by decide)
    ⟨by decide, by decide, by decide, by decide, by decide, by decide, trivial⟩
    (by decide) (by decide)
  exact ⟨by rw [h.1]; rfl, by rw [h.2]; rfl⟩

/-- Claim C6: an attribute-not-found on the very first characteristic page
means a zero-characteristic service: the walk ends with no characteristic
reported (the trace holds no characteristic callback) and the completion check
still runs (first conjunct, for every client); consequently the counting
client — complete iff it has seen at least one characteristic — yields
`ServiceIncomplete` on a zero-characteristic service (second conjunct) and
`Ok` on any well-formed service with at least one characteristic (third
conjunct). -/
theorem C6_zero_characteristic_roundtrip :
    (∀ (σ : Type) (cl : Client σ) (svc : ServiceRaw) (extra : List Event),
      svc.handleRange.startHandle < svc.handleRange.endHandle →
      discover cl (.evt (.primSrvc BLE_GATT_STATUS_SUCCESS [svc]) ::
          .evt (.charDisc BLE_GATT_STATUS_ATTERR_ATTRIBUTE_NOT_FOUND []) :: extra) =
        (.fin (completeOutcome cl cl.new_undiscovered),
         [.req (.serviceLookup cl.uuid),
          .req (.charPage ⟨svc.handleRange.startHandle, svc.handleRange.endHandle⟩),
          .completeCheck],
         extra)) ∧
    discover countClient [.evt (.primSrvc BLE_GATT_STATUS_SUCCESS [svcC2]),
        .evt (.charDisc BLE_GATT_STATUS_ATTERR_ATTRIBUTE_NOT_FOUND [])] =
      (.fin (.err .serviceIncomplete),
       [.req (.serviceLookup 7), .req (.charPage ⟨1, 20⟩), .completeCheck], []) ∧
    (∀ (svc : ServiceRaw) (chars : List CharRaw) (ps : Nat),
      1 ≤ ps → ps ≤ DiscCharsMax →
      charChain svc.handleRange.startHandle chars →
      (∀ c ∈ chars, c.handleValue ≤ svc.handleRange.endHandle) →
      chars ≠ [] →
      (discover countClient (.evt (.primSrvc BLE_GATT_STATUS_SUCCESS [svc]) ::
          serverScriptFrom svc.handleRange.endHandle ps chars none)).1 =
        .fin (.ok chars.length)) := by
  refine ⟨?_, by rfl, ?_⟩
  · intro σ cl svc extra hstart
    unfold discover
    rw [exec_cons]
    have hstep : stepAt cl .svcAwait (.evt (.primSrvc BLE_GATT_STATUS_SUCCESS [svc])) =
        (.inl (.charsAwait svc cl.new_undiscovered svc.handleRange.startHandle none),
         [.req (.serviceLookup cl.uuid)]) := by
      rw [stepAt_svc_ok]
      have hSL : startLoop cl svc = (.inl (.charsAwait svc cl.new_undiscovered
          svc.handleRange.startHandle none), ([] : List TraceItem)) := by
        simp only [startLoop, runPage, if_pos hstart]
      rw [hSL]
    rw [hstep]
    have hnil := exec_server_nil cl svc 1 none svc.handleRange.startHandle
      cl.new_undiscovered extra
    simp only [serverScriptFrom, lastDescEvts, loopTrace, lastTrace,
      List.cons_append, List.nil_append] at hnil
    simp only [execSum, hnil]
    simp [foldClient]
  · intro svc chars ps hps1 hps6 hchain hbound hne
    have hstart : svc.handleRange.startHandle < svc.handleRange.endHandle := by
      rcases chars with - | ⟨c, cs⟩
      · exact absurd rfl hne
      · have h1 := hchain.1
        have h2 := hchain.2.1
        have h3 := hbound c (List.mem_cons_self c cs)
        omega
    have h := discover_server_run countClient svc chars ps hps1 hps6 hchain hbound hstart
    rw [h]
    have hlen : chars.length ≠ 0 := by
      rcases chars with - | ⟨c, cs⟩
      · exact absurd rfl hne
      · simp
    rw [foldClient_count]
    simp [completeOutcome, countClient, hlen]

/-- Claim C6 witness: concrete zero-characteristic and two-characteristic
runs with the counting client. -/
theorem C6_zero_characteristic_roundtrip_witness :
    discover recClient [.evt (.primSrvc BLE_GATT_STATUS_SUCCESS [svcC2]),
        .evt (.charDisc BLE_GATT_STATUS_ATTERR_ATTRIBUTE_NOT_FOUND [])] =
      (.fin (.ok []),
       [.req (.serviceLookup 42), .req (.charPage ⟨1, 20⟩), .completeCheck], []) ∧
    (discover countClient (.evt (.primSrvc BLE_GATT_STATUS_SUCCESS [svcC2]) ::
        serverScriptFrom svcC2.handleRange.endHandle 1 [charA, charB] none)).1 =
      .fin (.ok 2) :=
  ⟨C6_zero_characteristic_roundtrip.1 _ recClient svcC2 [] (by decide),
   C6_zero_characteristic_roundtrip.2.2 svcC2 [charA, charB] 1 (by decide) (by decide)
     ⟨by decide, by decide, by decide, by decide, by decide, by decide, trivial⟩
     (by decide) (by decide)⟩

/-- Claim C9: a characteristic or descriptor response page holding more records
than the per-page capacity (6) makes the event handler panic (`none`), and a
successfully delivered page is never truncated (the delivered list is exactly
the raw record list). -/
theorem C9_capacity_overflow_is_fatal :
    (∀ status chars, status = BLE_GATT_STATUS_SUCCESS → DiscCharsMax < chars.length →
      on_char_disc_rsp status chars = none) ∧
    (∀ status descs, status = BLE_GATT_STATUS_SUCCESS → DiscDescsMax < descs.length →
      on_desc_disc_rsp status descs = none) ∧
    (∀ status chars v,
      on_char_disc_rsp status chars = some (.discoverCharacteristics (.ok v)) → v = chars) ∧
    (∀ status descs v,
      on_desc_disc_rsp status descs = some (.discoverDescriptors (.ok v)) → v = descs) := by
  refine ⟨?_, ?_, ?_, ?_⟩
  · intro status chars hs hlen
    subst hs
    simp [on_char_disc_rsp, check_status, Nat.not_le.mpr hlen]
  · intro status descs hs hlen
    subst hs
    simp [on_desc_disc_rsp, check_status, Nat.not_le.mpr hlen]
  · intro status chars v h
    simp only [on_char_disc_rsp, check_status] at h
    split at h
    · split at h <;> simp_all
    · simp_all
  · intro status descs v h
    simp only [on_desc_disc_rsp, check_status] at h
    split at h
    · split at h <;> simp_all
    · simp_all

/-- Claim C9 witness: a 7-record characteristic page and a 7-record descriptor
page are both fatal. -/
theorem C9_capacity_overflow_is_fatal_witness :
    on_char_disc_rsp 0 (List.replicate 7 ⟨⟨0, 0⟩, 0, 0, 0, 0⟩) = none ∧
    on_desc_disc_rsp 0 (List.replicate 7 ⟨⟨0, 0⟩, 0⟩) = none :=
  ⟨C9_capacity_overflow_is_fatal.1 0 _ rfl (by decide),
   C9_capacity_overflow_is_fatal.2.1 0 _ rfl (by decide)⟩

end GattClient
